import Mathlib

/-!
Verification development for the shifted CP decomposition fitter
(`tensortools/cpwarp/shift_cp2.py`) and for the Kruskal utilities
(`tensorly/kruskal.py`).

Modelling conventions:

* `float64` arithmetic is modelled by exact rational arithmetic (`ℚ`).
  Division on `ℚ` is total (division by zero yields `0`); the places where
  the source can divide by zero are discussed at the relevant theorems.
* The global NumPy random stream is modelled by an oracle `xi : ℕ → ℚ`
  together with a cursor (`rng`) threaded through the state.  A call to
  `np.random.rand()` reads `xi` at the cursor and advances it;
  `npr.uniform(lo, hi)` is modelled as `lo + (hi - lo) * xi i`, so the
  draw lies in `[lo, hi)` exactly when `xi i ∈ [0, 1)`.
* `npr.permutation(rank * 5)` is modelled by an oracle `perm : ℕ → List ℕ`
  giving, for each outer iteration, the visit order of the inner pass.
* The modules `padded_shifts` and `periodic_shifts` are imported by
  `shift_cp2.py` but their files are not part of the repository snapshot;
  each of their operations is modelled from the spec (section 4.1) and
  carries a doc comment starting with `Modelled from the spec:`.
-/

/-! ### Shift operators (spec-modelled collaborators of `shift_cp2.py`) -/

/-- Modelled from the spec: sampling of a length-`T` profile at an integer
position under the padded boundary convention — positions outside `[0, T)`
map to `0` (`padded_shifts` is not in the snapshot). -/
def paddedGet {T : ℕ} (w : Fin T → ℚ) (i : ℤ) : ℚ :=
  if h : 0 ≤ i ∧ i < (T : ℤ) then w ⟨i.toNat, by omega⟩ else 0

/-- Modelled from the spec: sampling of a length-`T` profile at an integer
position under the periodic boundary convention — indices wrap modulo `T`
(`periodic_shifts` is not in the snapshot). -/
def periodicGet {T : ℕ} (w : Fin T → ℚ) (i : ℤ) : ℚ :=
  if h : 0 < T then
    w ⟨(i % (T : ℤ)).toNat, by
      have h2 : i % (T : ℤ) < (T : ℤ) := Int.emod_lt_of_pos i (by exact_mod_cast h)
      omega⟩
  else 0

/-- Modelled from the spec: `padded_shifts.apply_shift` — the profile
evaluated at fractional offset `s` by linear interpolation between adjacent
integer-indexed samples, zero outside `[0, T)`.  Following the model
equation `X[n,k,t] ≈ Σ_r u v w[t + shift]`, entry `t` of the output reads
the profile at position `t + s`. -/
def applyShiftPadded {T : ℕ} (w : Fin T → ℚ) (s : ℚ) : Fin T → ℚ := fun t =>
  (1 - (((t : ℕ) : ℚ) + s - ⌊((t : ℕ) : ℚ) + s⌋)) * paddedGet w ⌊((t : ℕ) : ℚ) + s⌋
    + (((t : ℕ) : ℚ) + s - ⌊((t : ℕ) : ℚ) + s⌋) * paddedGet w (⌊((t : ℕ) : ℚ) + s⌋ + 1)

/-- Modelled from the spec: `periodic_shifts.apply_shift` — as in the padded
case but indices wrap modulo `T`. -/
def applyShiftPeriodic {T : ℕ} (w : Fin T → ℚ) (s : ℚ) : Fin T → ℚ := fun t =>
  (1 - (((t : ℕ) : ℚ) + s - ⌊((t : ℕ) : ℚ) + s⌋)) * periodicGet w ⌊((t : ℕ) : ℚ) + s⌋
    + (((t : ℕ) : ℚ) + s - ⌊((t : ℕ) : ℚ) + s⌋) * periodicGet w (⌊((t : ℕ) : ℚ) + s⌋ + 1)

/-- Dispatch on the boundary convention, mirroring the `periodic` boolean
branching of the source. -/
def applyShift {T : ℕ} (periodic : Bool) (w : Fin T → ℚ) (s : ℚ) : Fin T → ℚ :=
  if periodic then applyShiftPeriodic w s else applyShiftPadded w s

/-- Coefficient of `w j` in entry `t` of `applyShiftPadded w s`: the matrix
of the padded fractional-shift linear operator. -/
def padCoeff {T : ℕ} (s : ℚ) (t j : Fin T) : ℚ :=
  (if (j : ℤ) = ⌊((t : ℕ) : ℚ) + s⌋ then 1 - (((t : ℕ) : ℚ) + s - ⌊((t : ℕ) : ℚ) + s⌋) else 0)
    + (if (j : ℤ) = ⌊((t : ℕ) : ℚ) + s⌋ + 1 then ((t : ℕ) : ℚ) + s - ⌊((t : ℕ) : ℚ) + s⌋ else 0)

/-- Modelled from the spec: diagonal row of the 2-row banded representation
of the Gram matrix `Sᵀ S` of the padded shift operator
(`padded_shifts.shift_gram`). -/
def gramDiag {T : ℕ} (s : ℚ) (j : Fin T) : ℚ :=
  ∑ t, padCoeff s t j * padCoeff s t j

/-- Modelled from the spec: super-diagonal row of the banded representation
of `Sᵀ S` for the padded shift operator, stored shifted right by one as in
the upper banded convention (entry `0` is unused and set to `0`). -/
def gramSuper {T : ℕ} (s : ℚ) (j : Fin T) : ℚ :=
  if h : 0 < (j : ℕ) then
    ∑ t, padCoeff s t ⟨(j : ℕ) - 1, by omega⟩ * padCoeff s t j
  else 0

/-- Modelled from the spec: `padded_shifts.trans_shift` — the adjoint of the
padded shift operator applied to a residual slice. -/
def transShiftPad {T : ℕ} (z : Fin T → ℚ) (s : ℚ) : Fin T → ℚ := fun j =>
  ∑ t, padCoeff s t j * z t

/-- Coefficient of `w j` in entry `t` of `applyShiftPeriodic w s`. -/
def perCoeff {T : ℕ} (s : ℚ) (t j : Fin T) : ℚ :=
  (if (j : ℤ) = ⌊((t : ℕ) : ℚ) + s⌋ % (T : ℤ)
    then 1 - (((t : ℕ) : ℚ) + s - ⌊((t : ℕ) : ℚ) + s⌋) else 0)
    + (if (j : ℤ) = (⌊((t : ℕ) : ℚ) + s⌋ + 1) % (T : ℤ)
        then ((t : ℕ) : ℚ) + s - ⌊((t : ℕ) : ℚ) + s⌋ else 0)

/-- Modelled from the spec: `periodic_shifts.trans_shift` — the adjoint of
the periodic shift operator applied to a residual slice. -/
def transShiftPer {T : ℕ} (z : Fin T → ℚ) (s : ℚ) : Fin T → ℚ := fun j =>
  ∑ t, perCoeff s t j * z t

/-- Modelled from the spec: diagonal scalar of the circulant Gram matrix of
the periodic shift operator (`periodic_shifts.shift_gram`, first component). -/
def perGramD (s : ℚ) : ℚ :=
  (1 - (s - ⌊s⌋)) * (1 - (s - ⌊s⌋)) + (s - ⌊s⌋) * (s - ⌊s⌋)

/-- Modelled from the spec: off-diagonal scalar of the circulant Gram matrix
of the periodic shift operator (`periodic_shifts.shift_gram`, second
component). -/
def perGramOff (s : ℚ) : ℚ :=
  (1 - (s - ⌊s⌋)) * (s - ⌊s⌋)

/-- First row of the symmetric tridiagonal-plus-corner circulant matrix with
diagonal `d` and off-diagonal `offd`, as a circulant generator vector. -/
def circTriVec (T : ℕ) (d offd : ℚ) : Fin T → ℚ := fun k =>
  if (k : ℕ) = 0 then d else if (k : ℕ) = 1 ∨ (k : ℕ) = T - 1 then offd else 0

/-- Modelled from the spec: `periodic_shifts.rojo_solve` — the exact solution
of the circulant tridiagonal normal equations `A x = rhs`, written here via
the adjugate formula for the matrix inverse. -/
def rojoSolve (T : ℕ) (d offd : ℚ) (rhs : Fin T → ℚ) : Fin T → ℚ := fun i =>
  ((Matrix.circulant (circTriVec T d offd)).det)⁻¹
    * ((Matrix.circulant (circTriVec T d offd)).adjugate.mulVec rhs i)

/-- Extension of a length-`T` banded row to all of `ℕ` by zero; used to state
the boundary cases of the banded routines uniformly. -/
def extBand {T : ℕ} (b : Fin T → ℚ) (i : ℕ) : ℚ :=
  if h : i < T then b ⟨i, h⟩ else 0

/-- Modelled from the spec: `padded_shifts.sym_bmat_mul` — product of a
symmetric 2-row banded matrix (diagonal `b1`, super-diagonal `b0` stored
shifted right by one, entry `0` of `b0` being `0`) with a dense vector. -/
def symBmatMul {T : ℕ} (b1 b0 x : Fin T → ℚ) : Fin T → ℚ := fun t =>
  b1 t * x t + extBand b0 (t : ℕ) * extBand x ((t : ℕ) - 1)
    + extBand b0 ((t : ℕ) + 1) * extBand x ((t : ℕ) + 1)

/-! ### Embedding of `_fit_shift` (shift_cp2.py lines 320-368) -/

/-- `best < x` where `best : Option ℚ` encodes the running best loss
(`none` models the initial `np.inf`): the break test `loss > best_loss`. -/
def bestLt (best : Option ℚ) (x : ℚ) : Bool :=
  match best with
  | none => false
  | some b => decide (b < x)

/-- `x < best` where `best : Option ℚ` encodes the running best loss
(`none` models the initial `np.inf`): the acceptance test `loss < best_loss`. -/
def ltBest (x : ℚ) (best : Option ℚ) : Bool :=
  match best with
  | none => true
  | some b => decide (x < b)

/-- Loss contributed by row `m` of the residual block for candidate shift
`s` (`_fit_shift` inner loop body, lines 344-357). -/
def shiftRowLoss {M T : ℕ} (Z : Fin M → Fin T → ℚ) (y : ℚ) (f f_s : Fin M → ℚ)
    (w : Fin T → ℚ) (periodic : Bool) (s : ℚ) (m : Fin M) : ℚ :=
  ∑ t, (Z m t - y * f m * applyShift periodic w (s + f_s m) t)
    * (Z m t - y * f m * applyShift periodic w (s + f_s m) t)

/-- Row-by-row loss accumulation of `_fit_shift`, with the early break
`if loss > best_loss: break` (line 360-361). -/
def accumLoss (best : Option ℚ) : List ℚ → ℚ → ℚ
  | [], acc => acc
  | l :: ls, acc =>
    if bestLt best (acc + l) then acc + l else accumLoss best ls (acc + l)

/-- Candidate shift `i` of `_fit_shift`: candidate `0` is the incoming seed,
later candidates model `npr.uniform(-max_shift, max_shift)` through the
oracle `xi`. -/
def candShift (maxShift initShift : ℚ) (xi : ℕ → ℚ) (pos : ℕ) (i : ℕ) : ℚ :=
  if i = 0 then initShift else -maxShift + 2 * maxShift * xi (pos + (i - 1))

/-- One candidate evaluation of `_fit_shift`: score the shift `s` with early
termination against the incumbent, and keep it if its loss is strictly
smaller (ties keep the incumbent, lines 363-366). -/
def fitShiftStep {M T : ℕ} (Z : Fin M → Fin T → ℚ) (y : ℚ) (f f_s : Fin M → ℚ)
    (w : Fin T → ℚ) (periodic : Bool) (st : Option ℚ × ℚ) (s : ℚ) : Option ℚ × ℚ :=
  if ltBest (accumLoss st.1 ((List.finRange M).map (shiftRowLoss Z y f f_s w periodic s)) 0) st.1
  then (some (accumLoss st.1 ((List.finRange M).map (shiftRowLoss Z y f f_s w periodic s)) 0), s)
  else st

/-- Embedding of `_fit_shift` (lines 320-368): random search over `nIter`
candidate shifts, returning the best-scoring shift (initial best is
`(np.inf, 0.0)`).  Candidate `i > 0` consumes draw `pos + (i-1)` of the
oracle; a call advances the global cursor by `nIter - 1`. -/
def fit_shift {M T : ℕ} (Z : Fin M → Fin T → ℚ) (y : ℚ) (f f_s : Fin M → ℚ)
    (w : Fin T → ℚ) (maxShift : ℚ) (periodic : Bool) (nIter : ℕ) (initShift : ℚ)
    (xi : ℕ → ℚ) (pos : ℕ) : ℚ :=
  ((List.range nIter).foldl
    (fun st i => fitShiftStep Z y f f_s w periodic st (candShift maxShift initShift xi pos i))
    (none, 0)).2

/-- Total loss of candidate shift `s` over the whole block, without the
early termination — the reference objective of the random search. -/
def fullShiftLoss {M T : ℕ} (Z : Fin M → Fin T → ℚ) (y : ℚ) (f f_s : Fin M → ℚ)
    (w : Fin T → ℚ) (periodic : Bool) (s : ℚ) : ℚ :=
  ∑ m, shiftRowLoss Z y f f_s w periodic s m

/-! ### Embedding of `_prevent_zeros` (lines 370-375) -/

/-- Embedding of `_prevent_zeros`: if every entry of `x` has magnitude at
most `1e-9`, reseed the vector from the random stream (`np.random.rand`),
consuming `n` draws; otherwise return `x` unchanged.  The second component
is the advanced random cursor. -/
def prevent_zeros {n : ℕ} (x : Fin n → ℚ) (xi : ℕ → ℚ) (pos : ℕ) : (Fin n → ℚ) × ℕ :=
  if ∀ i, |x i| ≤ 1e-9 then (fun i => xi (pos + (i : ℕ)), pos + n) else (x, pos)

/-! ### State and parameters of `fit_shift_cp2` -/

/-- The arrays mutated in place by `fit_shift_cp2`, together with the cursor
into the random stream. -/
structure FitState (N K T R : ℕ) where
  X : Fin N → Fin K → Fin T → ℚ
  u : Fin R → Fin N → ℚ
  v : Fin R → Fin K → ℚ
  w : Fin R → Fin T → ℚ
  us : Fin R → Fin N → ℚ
  vs : Fin R → Fin K → ℚ
  rng : ℕ

/-- The scalar arguments of `fit_shift_cp2` plus the randomness oracles.
`mask` is a flat boolean array of arbitrary size; the source treats the mask
as present exactly when `mask.size == N * K * T` (lines 50-53). -/
structure FitParams (N K T R : ℕ) where
  Xnorm : ℚ
  min_iter : ℕ
  max_iter : ℕ
  tol : ℚ
  warp_iterations : ℕ
  max_shift_axis0 : ℚ
  max_shift_axis1 : ℚ
  u_nonneg : Bool
  v_nonneg : Bool
  periodic : Bool
  patience : ℕ
  mask : List Bool
  perm : ℕ → List ℕ
  xi : ℕ → ℚ

variable {N K T R : ℕ}

/-- Embedding of `predict` (lines 291-317): reconstruct the estimate tensor
from factors and shifts, skipping component `skip_dim` (`-1` means none). -/
def predict (u : Fin R → Fin N → ℚ) (v : Fin R → Fin K → ℚ) (w : Fin R → Fin T → ℚ)
    (u_s : Fin R → Fin N → ℚ) (v_s : Fin R → Fin K → ℚ) (periodic : Bool)
    (skip_dim : ℤ) : Fin N → Fin K → Fin T → ℚ := fun n k t =>
  ∑ r : Fin R, if ((r : ℕ) : ℤ) = skip_dim then 0
    else u r n * v r k * applyShift periodic (w r) (u_s r n + v_s r k) t

/-! ### The five parameter-group updates of the inner pass -/

/-- Numerator of the closed-form axis-0 weight update (lines 99-119):
`num = Σ_k v[r,k] * (Z[n,k] @ Ww)`. -/
def uNum (p : FitParams N K T R) (s : FitState N K T R) (r : Fin R)
    (Z : Fin N → Fin K → Fin T → ℚ) (n : Fin N) : ℚ :=
  ∑ k, s.v r k * ∑ t, Z n k t * applyShift p.periodic (s.w r) (s.us r n + s.vs r k) t

/-- Denominator of the closed-form axis-0 weight update (lines 99-120):
`denom = Σ_k v[r,k]² * (Ww @ Ww)`.  The division `num / denom` is performed
with no epsilon guard in the source. -/
def uDenom (p : FitParams N K T R) (s : FitState N K T R) (r : Fin R) (n : Fin N) : ℚ :=
  ∑ k, s.v r k * s.v r k
    * ∑ t, applyShift p.periodic (s.w r) (s.us r n + s.vs r k) t
      * applyShift p.periodic (s.w r) (s.us r n + s.vs r k) t

/-- Numerator of the closed-form axis-1 weight update (lines 140-160). -/
def vNum (p : FitParams N K T R) (s : FitState N K T R) (r : Fin R)
    (Z : Fin N → Fin K → Fin T → ℚ) (k : Fin K) : ℚ :=
  ∑ n, s.u r n * ∑ t, Z n k t * applyShift p.periodic (s.w r) (s.us r n + s.vs r k) t

/-- Denominator of the closed-form axis-1 weight update (lines 140-161). -/
def vDenom (p : FitParams N K T R) (s : FitState N K T R) (r : Fin R) (k : Fin K) : ℚ :=
  ∑ n, s.u r n * s.u r n
    * ∑ t, applyShift p.periodic (s.w r) (s.us r n + s.vs r k) t
      * applyShift p.periodic (s.w r) (s.us r n + s.vs r k) t

/-- The raw closed-form ratio vector of the axis-0 update (lines 96-122):
`u[r, n] = num / denom`, with no epsilon guard on the denominator. -/
def uRatio (p : FitParams N K T R) (s : FitState N K T R) (r : Fin R)
    (Z : Fin N → Fin K → Fin T → ℚ) : Fin N → ℚ :=
  fun n => uNum p s r Z n / uDenom p s r n

/-- The axis-0 ratio vector after the sign-flip normalization
(lines 124-127). -/
def uFlipVec (p : FitParams N K T R) (s : FitState N K T R) (r : Fin R)
    (Z : Fin N → Fin K → Fin T → ℚ) : Fin N → ℚ :=
  if ∀ n, uRatio p s r Z n < 0 then fun n => -uRatio p s r Z n else uRatio p s r Z

/-- The axis-0 weight vector produced by lines 94-131, before
`_prevent_zeros`: the raw ratios, then the sign-flip normalization, then the
optional projection onto the nonnegative orthant. -/
def uUpdateVec (p : FitParams N K T R) (s : FitState N K T R) (r : Fin R)
    (Z : Fin N → Fin K → Fin T → ℚ) : Fin N → ℚ :=
  if p.u_nonneg then fun n => max 0 (uFlipVec p s r Z n) else uFlipVec p s r Z

/-- The temporal factor after the sign-flip normalization of the axis-0
update (lines 124-127). -/
def uUpdateW (p : FitParams N K T R) (s : FitState N K T R) (r : Fin R)
    (Z : Fin N → Fin K → Fin T → ℚ) : Fin T → ℚ :=
  if ∀ n, uRatio p s r Z n < 0 then fun t => -s.w r t else s.w r

/-- Embedding of the `q == 0` branch (lines 94-132): closed-form axis-0
weight update, sign-flip normalization, optional nonnegative projection, and
`_prevent_zeros`. -/
def uUpdate (p : FitParams N K T R) (s : FitState N K T R) (r : Fin R)
    (Z : Fin N → Fin K → Fin T → ℚ) : FitState N K T R :=
  { s with
    u := Function.update s.u r (prevent_zeros (uUpdateVec p s r Z) p.xi s.rng).1,
    w := Function.update s.w r (uUpdateW p s r Z),
    rng := (prevent_zeros (uUpdateVec p s r Z) p.xi s.rng).2 }

/-- The raw closed-form ratio vector of the axis-1 update (lines 137-163). -/
def vRatio (p : FitParams N K T R) (s : FitState N K T R) (r : Fin R)
    (Z : Fin N → Fin K → Fin T → ℚ) : Fin K → ℚ :=
  fun k => vNum p s r Z k / vDenom p s r k

/-- The axis-1 ratio vector after the sign-flip normalization
(lines 165-168). -/
def vFlipVec (p : FitParams N K T R) (s : FitState N K T R) (r : Fin R)
    (Z : Fin N → Fin K → Fin T → ℚ) : Fin K → ℚ :=
  if ∀ k, vRatio p s r Z k < 0 then fun k => -vRatio p s r Z k else vRatio p s r Z

/-- The axis-1 weight vector produced by lines 135-172, before
`_prevent_zeros`. -/
def vUpdateVec (p : FitParams N K T R) (s : FitState N K T R) (r : Fin R)
    (Z : Fin N → Fin K → Fin T → ℚ) : Fin K → ℚ :=
  if p.v_nonneg then fun k => max 0 (vFlipVec p s r Z k) else vFlipVec p s r Z

/-- The temporal factor after the sign-flip normalization of the axis-1
update (lines 165-168). -/
def vUpdateW (p : FitParams N K T R) (s : FitState N K T R) (r : Fin R)
    (Z : Fin N → Fin K → Fin T → ℚ) : Fin T → ℚ :=
  if ∀ k, vRatio p s r Z k < 0 then fun t => -s.w r t else s.w r

/-- Embedding of the `q == 1` branch (lines 135-173): closed-form axis-1
weight update, sign-flip normalization, optional nonnegative projection, and
`_prevent_zeros`. -/
def vUpdate (p : FitParams N K T R) (s : FitState N K T R) (r : Fin R)
    (Z : Fin N → Fin K → Fin T → ℚ) : FitState N K T R :=
  { s with
    v := Function.update s.v r (prevent_zeros (vUpdateVec p s r Z) p.xi s.rng).1,
    w := Function.update s.w r (vUpdateW p s r Z),
    rng := (prevent_zeros (vUpdateVec p s r Z) p.xi s.rng).2 }

/-- Diagonal row of the banded Gram matrix assembled by the padded temporal
update (lines 211-226): the ridge `1e-8` is added to the diagonal row before
the accumulation over `(n, k)` pairs. -/
def wBand1 (p : FitParams N K T R) (s : FitState N K T R) (r : Fin R) : Fin T → ℚ :=
  fun j => 1e-8 + ∑ n, ∑ k,
    (s.u r n * s.v r k) * (s.u r n * s.v r k) * gramDiag (s.us r n + s.vs r k) j

/-- Super-diagonal row of the banded Gram matrix assembled by the padded
temporal update (lines 211-226). -/
def wBand0 (p : FitParams N K T R) (s : FitState N K T R) (r : Fin R) : Fin T → ℚ :=
  fun j => ∑ n, ∑ k,
    (s.u r n * s.v r k) * (s.u r n * s.v r k) * gramSuper (s.us r n + s.vs r k) j

/-- Right-hand side of the padded temporal normal equations (lines 228-230). -/
def wRhsPad (p : FitParams N K T R) (s : FitState N K T R) (r : Fin R)
    (Z : Fin N → Fin K → Fin T → ℚ) : Fin T → ℚ :=
  fun j => ∑ n, ∑ k,
    (s.u r n * s.v r k) * transShiftPad (Z n k) (s.us r n + s.vs r k) j

/-- Embedding of the Lipschitz bound of the padded temporal update
(lines 232-237): initialise with the circle bounds of rows `0` and `T-1`,
then fold the interior rows `1 .. T-2`, keeping the maximum. -/
def gershL (T : ℕ) (b1 b0 : ℕ → ℚ) : ℚ :=
  (List.range' 1 (T - 2)).foldl (fun L i => max L (b1 i + b0 i + b0 (i + 1)))
    (max (b1 0 + b0 1) (b1 (T - 1) + b0 (T - 1)))

/-- One projected gradient step of the padded temporal update
(lines 243-249): `w ← max(0, w - ss * (WtW @ w - rhs))`, entrywise. -/
def pgStep {T : ℕ} (b1 b0 rhs : Fin T → ℚ) (ss : ℚ) (x : Fin T → ℚ) : Fin T → ℚ :=
  fun t => max 0 (x t - ss * (symBmatMul b1 b0 x t - rhs t))

/-- Accumulated diagonal scalar of the circulant Gram matrix of the periodic
temporal update (lines 182-198). -/
def wDPer (p : FitParams N K T R) (s : FitState N K T R) (r : Fin R) : ℚ :=
  ∑ n, ∑ k, (s.u r n * s.v r k) * (s.u r n * s.v r k) * perGramD (s.us r n + s.vs r k)

/-- Accumulated off-diagonal scalar of the circulant Gram matrix of the
periodic temporal update (lines 182-198). -/
def wOffPer (p : FitParams N K T R) (s : FitState N K T R) (r : Fin R) : ℚ :=
  ∑ n, ∑ k, (s.u r n * s.v r k) * (s.u r n * s.v r k) * perGramOff (s.us r n + s.vs r k)

/-- Right-hand side of the periodic temporal normal equations
(lines 200-202). -/
def wRhsPer (p : FitParams N K T R) (s : FitState N K T R) (r : Fin R)
    (Z : Fin N → Fin K → Fin T → ℚ) : Fin T → ℚ :=
  fun j => ∑ n, ∑ k, (s.u r n * s.v r k) * transShiftPer (Z n k) (s.us r n + s.vs r k) j

/-- The ten projected gradient steps of the padded temporal update
(lines 239-249). -/
def wPadNew (p : FitParams N K T R) (s : FitState N K T R) (r : Fin R)
    (Z : Fin N → Fin K → Fin T → ℚ) : Fin T → ℚ :=
  (List.range 10).foldl
    (fun x _ => pgStep (wBand1 p s r) (wBand0 p s r) (wRhsPad p s r Z)
      (0.95 / gershL T (extBand (wBand1 p s r)) (extBand (wBand0 p s r))) x)
    (s.w r)

/-- Embedding of the `q == 2` branch (lines 176-249): temporal-factor
update.  Periodic: exact circulant solve.  Padded: Gershgorin step size and
ten projected gradient steps. -/
def wUpdate (p : FitParams N K T R) (s : FitState N K T R) (r : Fin R)
    (Z : Fin N → Fin K → Fin T → ℚ) : FitState N K T R :=
  if p.periodic then
    { s with w := Function.update s.w r (rojoSolve T (wDPer p s r) (wOffPer p s r) (wRhsPer p s r Z)) }
  else
    { s with w := Function.update s.w r (wPadNew p s r Z) }

/-- Embedding of the `q == 3` branch (lines 252-257): axis-0 shift update by
random search, one independent search per index `n`.  Call `n` reads the
random stream starting at `rng + n * (warp_iterations - 1)`; the step
advances the cursor by `N * (warp_iterations - 1)` draws in total. -/
def usUpdate (p : FitParams N K T R) (s : FitState N K T R) (r : Fin R)
    (Z : Fin N → Fin K → Fin T → ℚ) : FitState N K T R :=
  { s with
    us := Function.update s.us r (fun n =>
      fit_shift (Z n) (s.u r n) (s.v r) (s.vs r) (s.w r)
        (p.max_shift_axis0 * (T : ℚ)) p.periodic p.warp_iterations (s.us r n)
        p.xi (s.rng + (n : ℕ) * (p.warp_iterations - 1))),
    rng := s.rng + N * (p.warp_iterations - 1) }

/-- Embedding of the `q == 4` branch (lines 260-265): axis-1 shift update by
random search, one independent search per index `k`. -/
def vsUpdate (p : FitParams N K T R) (s : FitState N K T R) (r : Fin R)
    (Z : Fin N → Fin K → Fin T → ℚ) : FitState N K T R :=
  { s with
    vs := Function.update s.vs r (fun k =>
      fit_shift (fun n => Z n k) (s.v r k) (s.u r) (s.us r) (s.w r)
        (p.max_shift_axis1 * (T : ℚ)) p.periodic p.warp_iterations (s.vs r k)
        p.xi (s.rng + (k : ℕ) * (p.warp_iterations - 1))),
    rng := s.rng + K * (p.warp_iterations - 1) }

/-- One visit of the inner pass (lines 80-265): decode `z` into component
`r = z / 5` and group `q = z % 5`, recompute the leave-one-out residual,
and dispatch.  Shift updates only run once `itercount > 0`. -/
def stepZ (p : FitParams N K T R) (itercount : ℕ) (s : FitState N K T R) (z : ℕ) :
    FitState N K T R :=
  if hr : z / 5 < R then
    let Z : Fin N → Fin K → Fin T → ℚ := fun n k t =>
      s.X n k t - predict s.u s.v s.w s.us s.vs p.periodic ((z / 5 : ℕ) : ℤ) n k t
    if z % 5 = 0 then uUpdate p s ⟨z / 5, hr⟩ Z
    else if z % 5 = 1 then vUpdate p s ⟨z / 5, hr⟩ Z
    else if z % 5 = 2 then wUpdate p s ⟨z / 5, hr⟩ Z
    else if z % 5 = 3 then (if 0 < itercount then usUpdate p s ⟨z / 5, hr⟩ Z else s)
    else (if 0 < itercount then vsUpdate p s ⟨z / 5, hr⟩ Z else s)
  else s

/-- The inner pass of one outer iteration: visit the groups in the order
given by the permutation oracle for this iteration. -/
def innerPass (p : FitParams N K T R) (itercount : ℕ) (s : FitState N K T R) :
    FitState N K T R :=
  (p.perm itercount).foldl (stepZ p itercount) s

/-- Mask lookup at `(n, k, t)` through the flat mask array (`true` =
observed). -/
def maskAt (p : FitParams N K T R) (n : Fin N) (k : Fin K) (t : Fin T) : Bool :=
  p.mask.getD ((n : ℕ) * (K * T) + (k : ℕ) * T + (t : ℕ)) true

/-- Embedding of the imputation step (lines 271-277): when the mask is
present (`mask.size == N * K * T`), overwrite the masked-out entries of `X`
with the current full estimate; otherwise leave `X` untouched. -/
def impute (p : FitParams N K T R) (s : FitState N K T R) : FitState N K T R :=
  if p.mask.length = N * K * T then
    { s with X := fun n k t =>
        if maskAt p n k t then s.X n k t
        else predict s.u s.v s.w s.us s.vs p.periodic (-1) n k t }
  else s

/-- One outer iteration (lines 72-277): the randomized inner pass followed
by the full-model prediction and imputation. -/
def outerIter (p : FitParams N K T R) (itercount : ℕ) (s : FitState N K T R) :
    FitState N K T R :=
  impute p (innerPass p itercount s)

/-- State after `i` completed outer iterations. -/
def iterState (p : FitParams N K T R) (s₀ : FitState N K T R) : ℕ → FitState N K T R
  | 0 => s₀
  | i + 1 => outerIter p i (iterState p s₀ i)

/-- Embedding of the loss computation (line 281):
`np.linalg.norm((X - Xest).ravel()) / Xnorm`. -/
noncomputable def lossOf (p : FitParams N K T R) (s : FitState N K T R) : ℝ :=
  Real.sqrt (∑ n, ∑ k, ∑ t,
    (((s.X n k t - predict s.u s.v s.w s.us s.vs p.periodic (-1) n k t : ℚ) : ℝ)) ^ 2)
    / ((p.Xnorm : ℚ) : ℝ)

/-- Python negative indexing `hist[-k]` (for `0 < k ≤ len`); `hist[-0]`
denotes `hist[0]`. -/
noncomputable def negIdx (hist : List ℝ) (k : ℕ) : ℝ :=
  if k = 0 then hist.getD 0 0 else hist.getD (hist.length - k) 0

/-- The convergence state after appending a loss (lines 284-286): once
`itercount > max(patience, min_iter)`, converged means
`|loss_hist[-patience] - loss_hist[-1]| < tol`. -/
def convergedAfter (p : FitParams N K T R) (hist : List ℝ) : Prop :=
  max p.patience p.min_iter < hist.length
    ∧ |negIdx hist p.patience - negIdx hist 1| < ((p.tol : ℚ) : ℝ)

open Classical in
/-- The outer `while` loop of `fit_shift_cp2` (lines 72-286), with the
remaining iteration budget as fuel: run one outer iteration, append its
loss, and stop on convergence or exhaustion of `max_iter`. -/
noncomputable def fitLoop (p : FitParams N K T R) :
    ℕ → FitState N K T R → List ℝ → FitState N K T R × List ℝ
  | 0, s, hist => (s, hist)
  | fuel + 1, s, hist =>
    if convergedAfter p (hist ++ [lossOf p (outerIter p hist.length s)]) then
      (outerIter p hist.length s, hist ++ [lossOf p (outerIter p hist.length s)])
    else
      fitLoop p fuel (outerIter p hist.length s) (hist ++ [lossOf p (outerIter p hist.length s)])

/-- Embedding of `fit_shift_cp2` (lines 22-288): the state component of the
result collects the returned `(u, v, w, u_s, v_s)` arrays (and the imputed
`X`), the list component is the returned `loss_hist`. -/
noncomputable def fit_shift_cp2 (p : FitParams N K T R) (s₀ : FitState N K T R) :
    FitState N K T R × List ℝ :=
  fitLoop p p.max_iter s₀ []

/-- The loss appended at the end of outer iteration `i` (0-based). -/
noncomputable def lossSeq (p : FitParams N K T R) (s₀ : FitState N K T R) (i : ℕ) : ℝ :=
  lossOf p (iterState p s₀ (i + 1))

/-- The loss history after `n` completed outer iterations. -/
noncomputable def histUpTo (p : FitParams N K T R) (s₀ : FitState N K T R) (n : ℕ) :
    List ℝ :=
  (List.range n).map (lossSeq p s₀)

/-! ### Embedding of `tensorly/kruskal.py` -/

/-- A dense matrix of rationals, as passed around by `kruskal.py`. -/
structure Mat where
  rows : ℕ
  cols : ℕ
  entry : ℕ → ℕ → ℚ

/-- The Python exceptions relevant to `standardize_kruskal`. -/
inductive PyErr where
  | nameError : PyErr
  | indexError : PyErr
deriving DecidableEq

/-- Embedding of `standardize_kruskal` (kruskal.py lines 113-159).  For an
empty factor list, line 135 (`rank = factors[0].shape[1]`) raises
`IndexError`.  Otherwise lines 134-141 execute, and the first execution of
the inner loop header `for r in range(self.rank)` (line 146) reads the
unbound name `self` and raises `NameError`, so the function never reaches
its return statement.  The `let` bindings mirror the statements evaluated
before the failure. -/
def standardize_kruskal (factors : List Mat) : Except PyErr (List Mat × List ℚ) :=
  match factors with
  | [] => Except.error PyErr.indexError
  | f0 :: _ =>
    let ndim := factors.length
    let rank := f0.cols
    let lam : List ℚ := List.replicate rank 1
    let nrm_factors := factors.map (fun f => Mat.mk f.rows f.cols (fun _ _ => 0))
    Except.error PyErr.nameError

/-! ### Concrete inputs used by the claim-level theorems -/

/-- Concrete initial state for the nonnegativity counterexample: a periodic
rank-1 fit of the all-`(-1)` tensor of shape `(1, 1, 2)`. -/
def exS2 : FitState 1 1 2 1 where
  X := fun _ _ _ => -1
  u := fun _ _ => 1
  v := fun _ _ => 1
  w := fun _ _ => 1
  us := fun _ _ => 0
  vs := fun _ _ => 0
  rng := 0

/-- Concrete parameters for the nonnegativity counterexample: one outer
iteration, periodic boundary, both nonnegativity flags enabled, visit order
temporal update first. -/
def exP2 : FitParams 1 1 2 1 where
  Xnorm := 1
  min_iter := 10
  max_iter := 1
  tol := 1e-4
  warp_iterations := 10
  max_shift_axis0 := 0.1
  max_shift_axis1 := 0.1
  u_nonneg := true
  v_nonneg := true
  periodic := true
  patience := 5
  mask := []
  perm := fun _ => [2, 0, 1, 3, 4]
  xi := fun _ => 1/2

/-- Concrete initial state for the reseeding counterexample: a periodic
rank-1 fit of the all-zero tensor of shape `(1, 1, 2)`. -/
def exS5 : FitState 1 1 2 1 where
  X := fun _ _ _ => 0
  u := fun _ _ => 1
  v := fun _ _ => 1
  w := fun _ _ => 1
  us := fun _ _ => 0
  vs := fun _ _ => 0
  rng := 0

/-- Concrete parameters for the reseeding counterexample: one outer
iteration, periodic boundary, visit order with the temporal update last. -/
def exP5 : FitParams 1 1 2 1 where
  Xnorm := 1
  min_iter := 10
  max_iter := 1
  tol := 1e-4
  warp_iterations := 10
  max_shift_axis0 := 0.1
  max_shift_axis1 := 0.1
  u_nonneg := true
  v_nonneg := true
  periodic := true
  patience := 5
  mask := []
  perm := fun _ => [0, 1, 3, 4, 2]
  xi := fun _ => 1/2

/-- Residual block for the shift-bound counterexample. -/
def exZ3 : Fin 1 → Fin 1 → ℚ := fun _ _ => 2

/-- Weight vector for the shift-bound counterexample. -/
def exF3 : Fin 1 → ℚ := fun _ => 1

/-- Companion shift vector for the shift-bound counterexample. -/
def exFs3 : Fin 1 → ℚ := fun _ => 0

/-- Temporal profile for the shift-bound counterexample. -/
def exW3 : Fin 1 → ℚ := fun _ => 1

/-- State with an identically zero temporal factor, giving a zero
denominator in the axis-0 weight update. -/
def exS7 : FitState 1 1 1 1 where
  X := fun _ _ _ => 1
  u := fun _ _ => 1
  v := fun _ _ => 1
  w := fun _ _ => 0
  us := fun _ _ => 0
  vs := fun _ _ => 0
  rng := 0

/-- Parameters for the zero-denominator counterexample. -/
def exP7 : FitParams 1 1 1 1 where
  Xnorm := 1
  min_iter := 10
  max_iter := 1000
  tol := 1e-4
  warp_iterations := 10
  max_shift_axis0 := 0.1
  max_shift_axis1 := 0.1
  u_nonneg := true
  v_nonneg := true
  periodic := false
  patience := 5
  mask := []
  perm := fun _ => [0, 1, 2, 3, 4]
  xi := fun _ => 1/2

/-- Invalid configuration for the validation counterexample: non-positive
`max_iter` and a non-positive shift bound. -/
def exP8 : FitParams 1 1 1 1 where
  Xnorm := 1
  min_iter := 10
  max_iter := 0
  tol := 1e-4
  warp_iterations := 10
  max_shift_axis0 := 0
  max_shift_axis1 := 0.1
  u_nonneg := true
  v_nonneg := true
  periodic := false
  patience := 5
  mask := []
  perm := fun _ => [0, 1, 2, 3, 4]
  xi := fun _ => 1/2

/-- Arbitrary initial state accompanying `exP8`. -/
def exS8 : FitState 1 1 1 1 where
  X := fun _ _ _ => 1
  u := fun _ _ => 1
  v := fun _ _ => 1
  w := fun _ _ => 1
  us := fun _ _ => 0
  vs := fun _ _ => 0
  rng := 0

/-- Parameters without a mask (`mask.size = 0 ≠ 1`), for the frame-condition
witness. -/
def exP9 : FitParams 1 1 1 1 where
  Xnorm := 1
  min_iter := 10
  max_iter := 1000
  tol := 1e-4
  warp_iterations := 10
  max_shift_axis0 := 0.1
  max_shift_axis1 := 0.1
  u_nonneg := true
  v_nonneg := true
  periodic := false
  patience := 5
  mask := []
  perm := fun _ => [0, 1, 2, 3, 4]
  xi := fun _ => 1/2

/-- Arbitrary initial state accompanying `exP9`. -/
def exS9 : FitState 1 1 1 1 where
  X := fun _ _ _ => 3
  u := fun _ _ => 1
  v := fun _ _ => 1
  w := fun _ _ => 1
  us := fun _ _ => 0
  vs := fun _ _ => 0
  rng := 0

/-- A concrete one-by-one factor matrix. -/
def exM10 : Mat where
  rows := 1
  cols := 1
  entry := fun _ _ => 1

/-- Expected state of the `exP2`/`exS2` run after its temporal update: the
periodic solver writes the residual `-1` into the temporal factor. -/
def exS2a : FitState 1 1 2 1 := { exS2 with w := fun _ _ => -1 }

/-- Expected state of the `exP5`/`exS5` run after the axis-0 update: the
all-zero ratio vector is reseeded from the stream (one draw). -/
def exS5a : FitState 1 1 2 1 := { exS5 with u := fun _ _ => 1/2, rng := 1 }

/-- Expected state of the `exP5`/`exS5` run after the axis-1 update. -/
def exS5b : FitState 1 1 2 1 := { exS5a with v := fun _ _ => 1/2, rng := 2 }

/-- Expected state of the `exP5`/`exS5` run after its temporal update: the
zero right-hand side makes the solver write the all-zero profile, and no
reseeding happens. -/
def exS5c : FitState 1 1 2 1 := { exS5b with w := fun _ _ => 0 }

/-- Parameters for the loop-contract witness: a single outer iteration. -/
def exP1 : FitParams 1 1 1 1 where
  Xnorm := 1
  min_iter := 10
  max_iter := 1
  tol := 1e-4
  warp_iterations := 10
  max_shift_axis0 := 0.1
  max_shift_axis1 := 0.1
  u_nonneg := true
  v_nonneg := true
  periodic := false
  patience := 5
  mask := []
  perm := fun _ => [0, 1, 2, 3, 4]
  xi := fun _ => 1/2

/-- Initial state accompanying `exP1`. -/
def exS1 : FitState 1 1 1 1 where
  X := fun _ _ _ => 1
  u := fun _ _ => 1
  v := fun _ _ => 1
  w := fun _ _ => 1
  us := fun _ _ => 0
  vs := fun _ _ => 0
  rng := 0

/-- Parameters for the padded temporal-update witness (`periodic = false`,
`T = 2`). -/
def exP6 : FitParams 1 1 2 1 where
  Xnorm := 1
  min_iter := 10
  max_iter := 1000
  tol := 1e-4
  warp_iterations := 10
  max_shift_axis0 := 0.1
  max_shift_axis1 := 0.1
  u_nonneg := true
  v_nonneg := true
  periodic := false
  patience := 5
  mask := []
  perm := fun _ => [0, 1, 2, 3, 4]
  xi := fun _ => 1/2

/-- State accompanying `exP6`. -/
def exS6 : FitState 1 1 2 1 where
  X := fun _ _ _ => 1
  u := fun _ _ => 1
  v := fun _ _ => 1
  w := fun _ _ => 1
  us := fun _ _ => 0
  vs := fun _ _ => 0
  rng := 0

/-- Parameters for the shift-bound witness. -/
def exP3 : FitParams 1 1 2 1 where
  Xnorm := 1
  min_iter := 10
  max_iter := 1000
  tol := 1e-4
  warp_iterations := 10
  max_shift_axis0 := 0.1
  max_shift_axis1 := 0.1
  u_nonneg := true
  v_nonneg := true
  periodic := true
  patience := 5
  mask := []
  perm := fun _ => [0, 1, 2, 3, 4]
  xi := fun _ => 1/2

/-- Initial state accompanying `exP3`: all shifts zero, hence in bound. -/
def exS3 : FitState 1 1 2 1 where
  X := fun _ _ _ => 1
  u := fun _ _ => 1
  v := fun _ _ => 1
  w := fun _ _ => 1
  us := fun _ _ => 0
  vs := fun _ _ => 0
  rng := 0

/-! ### Theorems.  Evaluation lemmas for shift zero -/

theorem paddedGet_inBounds {T : ℕ} (w : Fin T → ℚ) (t : Fin T) :
    paddedGet w ((t : ℕ) : ℤ) = w t := by
  unfold paddedGet
  rw [dif_pos ⟨Int.ofNat_nonneg _, by exact_mod_cast t.isLt⟩]
  exact congrArg w (Fin.ext (by simp))

theorem applyShiftPadded_zero {T : ℕ} (w : Fin T → ℚ) :
    applyShiftPadded w 0 = w := by
  funext t
  unfold applyShiftPadded
  rw [add_zero]
  rw [show ⌊((t : ℕ) : ℚ)⌋ = ((t : ℕ) : ℤ) from Int.floor_natCast _]
  rw [show ((t : ℕ) : ℚ) - (((t : ℕ) : ℤ) : ℚ) = 0 by push_cast; ring]
  rw [paddedGet_inBounds]
  ring

theorem periodicGet_inBounds {T : ℕ} (w : Fin T → ℚ) (t : Fin T) :
    periodicGet w ((t : ℕ) : ℤ) = w t := by
  unfold periodicGet
  rw [dif_pos t.pos]
  refine congrArg w (Fin.ext ?_)
  show ((((t : ℕ) : ℤ) % (T : ℤ)).toNat) = (t : ℕ)
  rw [Int.emod_eq_of_lt (Int.ofNat_nonneg _) (by exact_mod_cast t.isLt)]
  simp

theorem applyShiftPeriodic_zero {T : ℕ} (w : Fin T → ℚ) :
    applyShiftPeriodic w 0 = w := by
  funext t
  unfold applyShiftPeriodic
  rw [add_zero]
  rw [show ⌊((t : ℕ) : ℚ)⌋ = ((t : ℕ) : ℤ) from Int.floor_natCast _]
  rw [show ((t : ℕ) : ℚ) - (((t : ℕ) : ℤ) : ℚ) = 0 by push_cast; ring]
  rw [periodicGet_inBounds]
  ring

theorem applyShift_zero {T : ℕ} (periodic : Bool) (w : Fin T → ℚ) :
    applyShift periodic w 0 = w := by
  unfold applyShift
  cases periodic
  · simp [applyShiftPadded_zero]
  · simp [applyShiftPeriodic_zero]

theorem perCoeff_zero {T : ℕ} (hT : 0 < T) (t j : Fin T) :
    perCoeff 0 t j = if j = t then 1 else 0 := by
  unfold perCoeff
  rw [add_zero]
  rw [show ⌊((t : ℕ) : ℚ)⌋ = ((t : ℕ) : ℤ) from Int.floor_natCast _]
  rw [show ((t : ℕ) : ℚ) - (((t : ℕ) : ℤ) : ℚ) = 0 by push_cast; ring]
  have hmod : ((t : ℕ) : ℤ) % (T : ℤ) = ((t : ℕ) : ℤ) := by
    apply Int.emod_eq_of_lt (Int.ofNat_nonneg _)
    exact_mod_cast t.isLt
  rw [hmod]
  have hiff : ((j : ℕ) : ℤ) = ((t : ℕ) : ℤ) ↔ j = t := by
    constructor
    · intro h; apply Fin.ext; exact_mod_cast h
    · intro h; rw [h]
  by_cases hjt : j = t
  · rw [if_pos (hiff.mpr hjt), if_pos hjt]
    simp
  · rw [if_neg (fun h => hjt (hiff.mp h)), if_neg hjt]
    simp

theorem transShiftPer_zero {T : ℕ} (hT : 0 < T) (z : Fin T → ℚ) :
    transShiftPer z 0 = z := by
  funext j
  unfold transShiftPer
  rw [Finset.sum_congr rfl (fun t _ => by rw [perCoeff_zero hT])]
  simp [Finset.sum_ite_eq]

theorem perGramD_zero : perGramD 0 = 1 := by
  unfold perGramD
  norm_num

theorem perGramOff_zero : perGramOff 0 = 0 := by
  unfold perGramOff
  norm_num

/-! ### Field-level lemmas for the update steps -/

theorem FitState.ext2 {a b : FitState N K T R} (hX : a.X = b.X) (hu : a.u = b.u)
    (hv : a.v = b.v) (hw : a.w = b.w) (hus : a.us = b.us) (hvs : a.vs = b.vs)
    (hrng : a.rng = b.rng) : a = b := by
  cases a
  cases b
  simp only at hX hu hv hw hus hvs hrng
  subst hX hu hv hw hus hvs hrng
  rfl

theorem uUpdate_X (p : FitParams N K T R) (s : FitState N K T R) (r : Fin R)
    (Z : Fin N → Fin K → Fin T → ℚ) : (uUpdate p s r Z).X = s.X := rfl

theorem uUpdate_v (p : FitParams N K T R) (s : FitState N K T R) (r : Fin R)
    (Z : Fin N → Fin K → Fin T → ℚ) : (uUpdate p s r Z).v = s.v := rfl

theorem uUpdate_us (p : FitParams N K T R) (s : FitState N K T R) (r : Fin R)
    (Z : Fin N → Fin K → Fin T → ℚ) : (uUpdate p s r Z).us = s.us := rfl

theorem uUpdate_vs (p : FitParams N K T R) (s : FitState N K T R) (r : Fin R)
    (Z : Fin N → Fin K → Fin T → ℚ) : (uUpdate p s r Z).vs = s.vs := rfl

theorem uUpdate_u_ne (p : FitParams N K T R) (s : FitState N K T R) (r r2 : Fin R)
    (Z : Fin N → Fin K → Fin T → ℚ) (h : r2 ≠ r) :
    (uUpdate p s r Z).u r2 = s.u r2 :=
  Function.update_noteq h _ _

theorem prevent_zeros_nonneg {n : ℕ} (x : Fin n → ℚ) (xi : ℕ → ℚ) (pos : ℕ)
    (hx : ∀ i, 0 ≤ x i) (hxi : ∀ i, 0 ≤ xi i) (i : Fin n) :
    0 ≤ (prevent_zeros x xi pos).1 i := by
  unfold prevent_zeros
  split
  · exact hxi _
  · exact hx i

theorem uUpdateVec_nonneg (p : FitParams N K T R) (s : FitState N K T R) (r : Fin R)
    (Z : Fin N → Fin K → Fin T → ℚ) (hNN : p.u_nonneg = true) (n : Fin N) :
    0 ≤ uUpdateVec p s r Z n := by
  unfold uUpdateVec
  simp only [hNN, if_true]
  exact le_max_left _ _

theorem uUpdate_u_nonneg (p : FitParams N K T R) (s : FitState N K T R) (r : Fin R)
    (Z : Fin N → Fin K → Fin T → ℚ) (hNN : p.u_nonneg = true)
    (hxi : ∀ i, 0 ≤ p.xi i) (n : Fin N) : 0 ≤ (uUpdate p s r Z).u r n := by
  show 0 ≤ Function.update s.u r (prevent_zeros (uUpdateVec p s r Z) p.xi s.rng).1 r n
  rw [Function.update_same]
  exact prevent_zeros_nonneg _ _ _ (uUpdateVec_nonneg p s r Z hNN) hxi n

theorem vUpdate_X (p : FitParams N K T R) (s : FitState N K T R) (r : Fin R)
    (Z : Fin N → Fin K → Fin T → ℚ) : (vUpdate p s r Z).X = s.X := rfl

theorem vUpdate_u (p : FitParams N K T R) (s : FitState N K T R) (r : Fin R)
    (Z : Fin N → Fin K → Fin T → ℚ) : (vUpdate p s r Z).u = s.u := rfl

theorem vUpdate_us (p : FitParams N K T R) (s : FitState N K T R) (r : Fin R)
    (Z : Fin N → Fin K → Fin T → ℚ) : (vUpdate p s r Z).us = s.us := rfl

theorem vUpdate_vs (p : FitParams N K T R) (s : FitState N K T R) (r : Fin R)
    (Z : Fin N → Fin K → Fin T → ℚ) : (vUpdate p s r Z).vs = s.vs := rfl

theorem vUpdate_v_ne (p : FitParams N K T R) (s : FitState N K T R) (r r2 : Fin R)
    (Z : Fin N → Fin K → Fin T → ℚ) (h : r2 ≠ r) :
    (vUpdate p s r Z).v r2 = s.v r2 :=
  Function.update_noteq h _ _

theorem vUpdateVec_nonneg (p : FitParams N K T R) (s : FitState N K T R) (r : Fin R)
    (Z : Fin N → Fin K → Fin T → ℚ) (hNN : p.v_nonneg = true) (k : Fin K) :
    0 ≤ vUpdateVec p s r Z k := by
  unfold vUpdateVec
  simp only [hNN, if_true]
  exact le_max_left _ _

theorem vUpdate_v_nonneg (p : FitParams N K T R) (s : FitState N K T R) (r : Fin R)
    (Z : Fin N → Fin K → Fin T → ℚ) (hNN : p.v_nonneg = true)
    (hxi : ∀ i, 0 ≤ p.xi i) (k : Fin K) : 0 ≤ (vUpdate p s r Z).v r k := by
  show 0 ≤ Function.update s.v r (prevent_zeros (vUpdateVec p s r Z) p.xi s.rng).1 r k
  rw [Function.update_same]
  exact prevent_zeros_nonneg _ _ _ (vUpdateVec_nonneg p s r Z hNN) hxi k

theorem wUpdate_X (p : FitParams N K T R) (s : FitState N K T R) (r : Fin R)
    (Z : Fin N → Fin K → Fin T → ℚ) : (wUpdate p s r Z).X = s.X := by
  unfold wUpdate
  split <;> rfl

theorem wUpdate_u (p : FitParams N K T R) (s : FitState N K T R) (r : Fin R)
    (Z : Fin N → Fin K → Fin T → ℚ) : (wUpdate p s r Z).u = s.u := by
  unfold wUpdate
  split <;> rfl

theorem wUpdate_v (p : FitParams N K T R) (s : FitState N K T R) (r : Fin R)
    (Z : Fin N → Fin K → Fin T → ℚ) : (wUpdate p s r Z).v = s.v := by
  unfold wUpdate
  split <;> rfl

theorem wUpdate_us (p : FitParams N K T R) (s : FitState N K T R) (r : Fin R)
    (Z : Fin N → Fin K → Fin T → ℚ) : (wUpdate p s r Z).us = s.us := by
  unfold wUpdate
  split <;> rfl

theorem wUpdate_vs (p : FitParams N K T R) (s : FitState N K T R) (r : Fin R)
    (Z : Fin N → Fin K → Fin T → ℚ) : (wUpdate p s r Z).vs = s.vs := by
  unfold wUpdate
  split <;> rfl

theorem wUpdate_rng (p : FitParams N K T R) (s : FitState N K T R) (r : Fin R)
    (Z : Fin N → Fin K → Fin T → ℚ) : (wUpdate p s r Z).rng = s.rng := by
  unfold wUpdate
  split <;> rfl

theorem usUpdate_X (p : FitParams N K T R) (s : FitState N K T R) (r : Fin R)
    (Z : Fin N → Fin K → Fin T → ℚ) : (usUpdate p s r Z).X = s.X := rfl

theorem usUpdate_u (p : FitParams N K T R) (s : FitState N K T R) (r : Fin R)
    (Z : Fin N → Fin K → Fin T → ℚ) : (usUpdate p s r Z).u = s.u := rfl

theorem usUpdate_v (p : FitParams N K T R) (s : FitState N K T R) (r : Fin R)
    (Z : Fin N → Fin K → Fin T → ℚ) : (usUpdate p s r Z).v = s.v := rfl

theorem usUpdate_w (p : FitParams N K T R) (s : FitState N K T R) (r : Fin R)
    (Z : Fin N → Fin K → Fin T → ℚ) : (usUpdate p s r Z).w = s.w := rfl

theorem usUpdate_vs2 (p : FitParams N K T R) (s : FitState N K T R) (r : Fin R)
    (Z : Fin N → Fin K → Fin T → ℚ) : (usUpdate p s r Z).vs = s.vs := rfl

theorem usUpdate_us_ne (p : FitParams N K T R) (s : FitState N K T R) (r r2 : Fin R)
    (Z : Fin N → Fin K → Fin T → ℚ) (h : r2 ≠ r) :
    (usUpdate p s r Z).us r2 = s.us r2 :=
  Function.update_noteq h _ _

theorem vsUpdate_X (p : FitParams N K T R) (s : FitState N K T R) (r : Fin R)
    (Z : Fin N → Fin K → Fin T → ℚ) : (vsUpdate p s r Z).X = s.X := rfl

theorem vsUpdate_u (p : FitParams N K T R) (s : FitState N K T R) (r : Fin R)
    (Z : Fin N → Fin K → Fin T → ℚ) : (vsUpdate p s r Z).u = s.u := rfl

theorem vsUpdate_v (p : FitParams N K T R) (s : FitState N K T R) (r : Fin R)
    (Z : Fin N → Fin K → Fin T → ℚ) : (vsUpdate p s r Z).v = s.v := rfl

theorem vsUpdate_w (p : FitParams N K T R) (s : FitState N K T R) (r : Fin R)
    (Z : Fin N → Fin K → Fin T → ℚ) : (vsUpdate p s r Z).w = s.w := rfl

theorem vsUpdate_us2 (p : FitParams N K T R) (s : FitState N K T R) (r : Fin R)
    (Z : Fin N → Fin K → Fin T → ℚ) : (vsUpdate p s r Z).us = s.us := rfl

theorem vsUpdate_vs_ne (p : FitParams N K T R) (s : FitState N K T R) (r r2 : Fin R)
    (Z : Fin N → Fin K → Fin T → ℚ) (h : r2 ≠ r) :
    (vsUpdate p s r Z).vs r2 = s.vs r2 :=
  Function.update_noteq h _ _

theorem impute_u (p : FitParams N K T R) (s : FitState N K T R) :
    (impute p s).u = s.u := by
  unfold impute
  split <;> rfl

theorem impute_v (p : FitParams N K T R) (s : FitState N K T R) :
    (impute p s).v = s.v := by
  unfold impute
  split <;> rfl

theorem impute_w (p : FitParams N K T R) (s : FitState N K T R) :
    (impute p s).w = s.w := by
  unfold impute
  split <;> rfl

theorem impute_us (p : FitParams N K T R) (s : FitState N K T R) :
    (impute p s).us = s.us := by
  unfold impute
  split <;> rfl

theorem impute_vs (p : FitParams N K T R) (s : FitState N K T R) :
    (impute p s).vs = s.vs := by
  unfold impute
  split <;> rfl

theorem impute_rng (p : FitParams N K T R) (s : FitState N K T R) :
    (impute p s).rng = s.rng := by
  unfold impute
  split <;> rfl

/-! ### Frame lemmas for one inner-pass step -/

theorem stepZ_X (p : FitParams N K T R) (c : ℕ) (s : FitState N K T R) (z : ℕ) :
    (stepZ p c s z).X = s.X := by
  unfold stepZ
  split
  · split_ifs <;>
      simp only [uUpdate_X, vUpdate_X, wUpdate_X, usUpdate_X, vsUpdate_X]
  · rfl

theorem stepZ_u_ne (p : FitParams N K T R) (c : ℕ) (s : FitState N K T R) (z : ℕ)
    (r2 : Fin R) (h : z ≠ 5 * (r2 : ℕ)) : (stepZ p c s z).u r2 = s.u r2 := by
  unfold stepZ
  split
  · split_ifs with h0 h1 h2 h3 hc1 hc2
    · apply uUpdate_u_ne
      intro heq
      apply h
      have hval : (r2 : ℕ) = z / 5 := by rw [heq]
      omega
    · simp only [vUpdate_u]
    · simp only [wUpdate_u]
    · simp only [usUpdate_u]
    · rfl
    · simp only [vsUpdate_u]
    · rfl
  · rfl

theorem stepZ_v_ne (p : FitParams N K T R) (c : ℕ) (s : FitState N K T R) (z : ℕ)
    (r2 : Fin R) (h : z ≠ 5 * (r2 : ℕ) + 1) : (stepZ p c s z).v r2 = s.v r2 := by
  unfold stepZ
  split
  · split_ifs with h0 h1 h2 h3 hc1 hc2
    · simp only [uUpdate_v]
    · apply vUpdate_v_ne
      intro heq
      apply h
      have hval : (r2 : ℕ) = z / 5 := by rw [heq]
      omega
    · simp only [wUpdate_v]
    · simp only [usUpdate_v]
    · rfl
    · simp only [vsUpdate_v]
    · rfl
  · rfl

theorem stepZ_us_ne (p : FitParams N K T R) (c : ℕ) (s : FitState N K T R) (z : ℕ)
    (r2 : Fin R) (h : z ≠ 5 * (r2 : ℕ) + 3) : (stepZ p c s z).us r2 = s.us r2 := by
  unfold stepZ
  split
  · split_ifs with h0 h1 h2 h3 hc1 hc2
    · simp only [uUpdate_us]
    · simp only [vUpdate_us]
    · simp only [wUpdate_us]
    · apply usUpdate_us_ne
      intro heq
      apply h
      have hval : (r2 : ℕ) = z / 5 := by rw [heq]
      omega
    · rfl
    · simp only [vsUpdate_us2]
    · rfl
  · rfl

theorem stepZ_vs_ne (p : FitParams N K T R) (c : ℕ) (s : FitState N K T R) (z : ℕ)
    (r2 : Fin R) (h : z ≠ 5 * (r2 : ℕ) + 4) : (stepZ p c s z).vs r2 = s.vs r2 := by
  unfold stepZ
  split
  · split_ifs with h0 h1 h2 h3 hc1 hc2
    · simp only [uUpdate_vs]
    · simp only [vUpdate_vs]
    · simp only [wUpdate_vs]
    · simp only [usUpdate_vs2]
    · rfl
    · apply vsUpdate_vs_ne
      intro heq
      apply h
      have hval : (r2 : ℕ) = z / 5 := by rw [heq]
      omega
    · rfl
  · rfl

theorem stepZ_u_nonneg (p : FitParams N K T R) (c : ℕ) (s : FitState N K T R)
    (r : Fin R) (hNN : p.u_nonneg = true) (hxi : ∀ i, 0 ≤ p.xi i) (n : Fin N) :
    0 ≤ (stepZ p c s (5 * (r : ℕ))).u r n := by
  unfold stepZ
  split
  case isTrue hr =>
    rw [if_pos (by omega : 5 * (r : ℕ) % 5 = 0)]
    have hcomp : (⟨5 * (r : ℕ) / 5, hr⟩ : Fin R) = r :=
      Fin.ext (by show 5 * (r : ℕ) / 5 = (r : ℕ); omega)
    rw [hcomp]
    exact uUpdate_u_nonneg p s r _ hNN hxi n
  case isFalse hr =>
    exact absurd (by omega : 5 * (r : ℕ) / 5 < R) hr

theorem stepZ_v_nonneg (p : FitParams N K T R) (c : ℕ) (s : FitState N K T R)
    (r : Fin R) (hNN : p.v_nonneg = true) (hxi : ∀ i, 0 ≤ p.xi i) (k : Fin K) :
    0 ≤ (stepZ p c s (5 * (r : ℕ) + 1)).v r k := by
  unfold stepZ
  split
  case isTrue hr =>
    rw [if_neg (by omega : ¬(5 * (r : ℕ) + 1) % 5 = 0)]
    rw [if_pos (by omega : (5 * (r : ℕ) + 1) % 5 = 1)]
    have hcomp : (⟨(5 * (r : ℕ) + 1) / 5, hr⟩ : Fin R) = r :=
      Fin.ext (by show (5 * (r : ℕ) + 1) / 5 = (r : ℕ); omega)
    rw [hcomp]
    exact vUpdate_v_nonneg p s r _ hNN hxi k
  case isFalse hr =>
    exact absurd (by omega : (5 * (r : ℕ) + 1) / 5 < R) hr

/-! ### Fold-level invariants over the inner pass -/

theorem foldl_stepZ_X (p : FitParams N K T R) (c : ℕ) (L : List ℕ)
    (s : FitState N K T R) : (L.foldl (stepZ p c) s).X = s.X := by
  induction L generalizing s with
  | nil => rfl
  | cons a L ih => rw [List.foldl_cons, ih, stepZ_X]

theorem foldl_stepZ_u_frame (p : FitParams N K T R) (c : ℕ) (L : List ℕ)
    (s : FitState N K T R) (r : Fin R) (h : 5 * (r : ℕ) ∉ L) :
    (L.foldl (stepZ p c) s).u r = s.u r := by
  induction L generalizing s with
  | nil => rfl
  | cons a L ih =>
    rw [List.foldl_cons, ih _ (fun hm => h (List.mem_cons_of_mem a hm)),
      stepZ_u_ne p c s a r (fun heq => h (heq ▸ List.mem_cons_self a L))]

theorem foldl_stepZ_v_frame (p : FitParams N K T R) (c : ℕ) (L : List ℕ)
    (s : FitState N K T R) (r : Fin R) (h : 5 * (r : ℕ) + 1 ∉ L) :
    (L.foldl (stepZ p c) s).v r = s.v r := by
  induction L generalizing s with
  | nil => rfl
  | cons a L ih =>
    rw [List.foldl_cons, ih _ (fun hm => h (List.mem_cons_of_mem a hm)),
      stepZ_v_ne p c s a r (fun heq => h (heq ▸ List.mem_cons_self a L))]

theorem foldl_stepZ_u_nonneg (p : FitParams N K T R) (c : ℕ) (L : List ℕ)
    (s : FitState N K T R) (r : Fin R) (hmem : 5 * (r : ℕ) ∈ L)
    (hNN : p.u_nonneg = true) (hxi : ∀ i, 0 ≤ p.xi i) (n : Fin N) :
    0 ≤ (L.foldl (stepZ p c) s).u r n := by
  induction L generalizing s with
  | nil => cases hmem
  | cons a L ih =>
    rcases List.mem_cons.mp hmem with ha | hL
    · by_cases hL2 : 5 * (r : ℕ) ∈ L
      · rw [List.foldl_cons]
        exact ih _ hL2
      · rw [List.foldl_cons, congrFun (foldl_stepZ_u_frame p c L _ r hL2) n, ← ha]
        exact stepZ_u_nonneg p c s r hNN hxi n
    · rw [List.foldl_cons]
      exact ih _ hL

theorem foldl_stepZ_v_nonneg (p : FitParams N K T R) (c : ℕ) (L : List ℕ)
    (s : FitState N K T R) (r : Fin R) (hmem : 5 * (r : ℕ) + 1 ∈ L)
    (hNN : p.v_nonneg = true) (hxi : ∀ i, 0 ≤ p.xi i) (k : Fin K) :
    0 ≤ (L.foldl (stepZ p c) s).v r k := by
  induction L generalizing s with
  | nil => cases hmem
  | cons a L ih =>
    rcases List.mem_cons.mp hmem with ha | hL
    · by_cases hL2 : 5 * (r : ℕ) + 1 ∈ L
      · rw [List.foldl_cons]
        exact ih _ hL2
      · rw [List.foldl_cons, congrFun (foldl_stepZ_v_frame p c L _ r hL2) k, ← ha]
        exact stepZ_v_nonneg p c s r hNN hxi k
    · rw [List.foldl_cons]
      exact ih _ hL

/-! ### Small evaluation utilities for concrete runs -/

theorem impute_not_masked (p : FitParams N K T R) (s : FitState N K T R)
    (h : ¬ p.mask.length = N * K * T) : impute p s = s := by
  unfold impute
  rw [if_neg h]

theorem stepZ_q3_iter0 (p : FitParams N K T R) (s : FitState N K T R) (z : ℕ)
    (h : z % 5 = 3) : stepZ p 0 s z = s := by
  unfold stepZ
  split
  · split_ifs with h0 h1 h2 h3 hc <;> first | rfl | omega
  · rfl

theorem stepZ_q4_iter0 (p : FitParams N K T R) (s : FitState N K T R) (z : ℕ)
    (h : z % 5 = 4) : stepZ p 0 s z = s := by
  unfold stepZ
  split
  · split_ifs with h0 h1 h2 h3 hc <;> first | rfl | omega
  · rfl

theorem predict_rank1_skip0 {N K T : ℕ} (u : Fin 1 → Fin N → ℚ) (v : Fin 1 → Fin K → ℚ)
    (w : Fin 1 → Fin T → ℚ) (us : Fin 1 → Fin N → ℚ) (vs : Fin 1 → Fin K → ℚ)
    (per : Bool) (n : Fin N) (k : Fin K) (t : Fin T) :
    predict u v w us vs per (((0 : Fin 1) : ℕ) : ℤ) n k t = 0 := by
  unfold predict
  rw [Fin.sum_univ_one]
  simp

theorem rojoSolve_zero_rhs (T : ℕ) (d offd : ℚ) :
    rojoSolve T d offd (fun _ => 0) = fun _ => 0 := by
  funext i
  unfold rojoSolve
  rw [show (fun _ : Fin T => (0 : ℚ)) = (0 : Fin T → ℚ) from rfl, Matrix.mulVec_zero]
  simp

theorem circTriVec_two_id :
    Matrix.circulant (circTriVec 2 1 0) = (1 : Matrix (Fin 2) (Fin 2) ℚ) := by
  funext i j
  rw [Matrix.circulant_apply, Matrix.one_apply]
  unfold circTriVec
  fin_cases i <;> fin_cases j <;> simp

theorem rojoSolve_two_id (rhs : Fin 2 → ℚ) : rojoSolve 2 1 0 rhs = rhs := by
  funext i
  unfold rojoSolve
  rw [circTriVec_two_id, Matrix.det_one, Matrix.adjugate_one, Matrix.one_mulVec]
  norm_num

theorem stepZ_q0r (p : FitParams N K T R) (c : ℕ) (s : FitState N K T R) (r : Fin R) :
    stepZ p c s (5 * (r : ℕ)) = uUpdate p s r (fun n k t =>
      s.X n k t - predict s.u s.v s.w s.us s.vs p.periodic ((r : ℕ) : ℤ) n k t) := by
  unfold stepZ
  have hdiv : 5 * (r : ℕ) / 5 = (r : ℕ) := by omega
  rw [dif_pos (by have := r.isLt; omega : 5 * (r : ℕ) / 5 < R)]
  rw [if_pos (by omega : 5 * (r : ℕ) % 5 = 0)]
  simp only [hdiv, Fin.eta]

theorem stepZ_q1r (p : FitParams N K T R) (c : ℕ) (s : FitState N K T R) (r : Fin R) :
    stepZ p c s (5 * (r : ℕ) + 1) = vUpdate p s r (fun n k t =>
      s.X n k t - predict s.u s.v s.w s.us s.vs p.periodic ((r : ℕ) : ℤ) n k t) := by
  unfold stepZ
  have hdiv : (5 * (r : ℕ) + 1) / 5 = (r : ℕ) := by omega
  rw [dif_pos (by have := r.isLt; omega : (5 * (r : ℕ) + 1) / 5 < R)]
  rw [if_neg (by omega : ¬(5 * (r : ℕ) + 1) % 5 = 0)]
  rw [if_pos (by omega : (5 * (r : ℕ) + 1) % 5 = 1)]
  simp only [hdiv, Fin.eta]

theorem stepZ_q2r (p : FitParams N K T R) (c : ℕ) (s : FitState N K T R) (r : Fin R) :
    stepZ p c s (5 * (r : ℕ) + 2) = wUpdate p s r (fun n k t =>
      s.X n k t - predict s.u s.v s.w s.us s.vs p.periodic ((r : ℕ) : ℤ) n k t) := by
  unfold stepZ
  have hdiv : (5 * (r : ℕ) + 2) / 5 = (r : ℕ) := by omega
  rw [dif_pos (by have := r.isLt; omega : (5 * (r : ℕ) + 2) / 5 < R)]
  rw [if_neg (by omega : ¬(5 * (r : ℕ) + 2) % 5 = 0)]
  rw [if_neg (by omega : ¬(5 * (r : ℕ) + 2) % 5 = 1)]
  rw [if_pos (by omega : (5 * (r : ℕ) + 2) % 5 = 2)]
  simp only [hdiv, Fin.eta]

theorem sum11 (f : Fin 1 → Fin 1 → ℚ) : (∑ n : Fin 1, ∑ k : Fin 1, f n k) = f 0 0 := by
  rw [Fin.sum_univ_one, Fin.sum_univ_one]

/-! ### The concrete run behind the nonnegativity counterexample -/

theorem exS2_residual (n : Fin 1) (k : Fin 1) (t : Fin 2) :
    exS2.X n k t - predict exS2.u exS2.v exS2.w exS2.us exS2.vs exP2.periodic
      (((0 : Fin 1) : ℕ) : ℤ) n k t = -1 := by
  rw [predict_rank1_skip0]
  show (-1 : ℚ) - 0 = -1
  norm_num

theorem exS2_step2 : stepZ exP2 0 exS2 2 = exS2a := by
  show stepZ exP2 0 exS2 (5 * ((0 : Fin 1) : ℕ) + 2) = exS2a
  rw [stepZ_q2r exP2 0 exS2 0]
  unfold wUpdate
  rw [if_pos (show exP2.periodic = true from rfl)]
  apply FitState.ext2 <;> try rfl
  show Function.update exS2.w 0 (rojoSolve 2 (wDPer exP2 exS2 0) (wOffPer exP2 exS2 0)
    (wRhsPer exP2 exS2 0 _)) = exS2a.w
  have hd : wDPer exP2 exS2 0 = 1 := by
    unfold wDPer
    rw [sum11]
    show 1 * 1 * (1 * 1) * perGramD (0 + 0) = 1
    rw [add_zero, perGramD_zero]
    norm_num
  have hoff : wOffPer exP2 exS2 0 = 0 := by
    unfold wOffPer
    rw [sum11]
    show 1 * 1 * (1 * 1) * perGramOff (0 + 0) = 0
    rw [add_zero, perGramOff_zero]
    norm_num
  have hrhs : wRhsPer exP2 exS2 0 (fun n k t =>
      exS2.X n k t - predict exS2.u exS2.v exS2.w exS2.us exS2.vs exP2.periodic
        (((0 : Fin 1) : ℕ) : ℤ) n k t) = fun _ : Fin 2 => (-1 : ℚ) := by
    funext j
    unfold wRhsPer
    rw [sum11]
    show 1 * 1 * transShiftPer _ (0 + 0) j = -1
    rw [add_zero, transShiftPer_zero (by norm_num)]
    show 1 * 1 * (exS2.X 0 0 j - predict exS2.u exS2.v exS2.w exS2.us exS2.vs exP2.periodic
      (((0 : Fin 1) : ℕ) : ℤ) 0 0 j) = -1
    rw [exS2_residual]
    norm_num
  rw [hd, hoff, hrhs, rojoSolve_two_id]
  funext r t
  rw [Subsingleton.elim r (0 : Fin 1), Function.update_same]
  rfl

theorem uNum_eval {T : ℕ} (p : FitParams 1 1 T 1) (s : FitState 1 1 T 1)
    (Z : Fin 1 → Fin 1 → Fin T → ℚ) (hus : s.us 0 0 = 0) (hvs : s.vs 0 0 = 0)
    (n : Fin 1) : uNum p s 0 Z n = s.v 0 0 * ∑ t, Z 0 0 t * s.w 0 t := by
  unfold uNum
  rw [Fin.sum_univ_one, Subsingleton.elim n 0, hus, hvs, add_zero, applyShift_zero]

theorem uDenom_eval {T : ℕ} (p : FitParams 1 1 T 1) (s : FitState 1 1 T 1)
    (hus : s.us 0 0 = 0) (hvs : s.vs 0 0 = 0) (n : Fin 1) :
    uDenom p s 0 n = s.v 0 0 * s.v 0 0 * ∑ t, s.w 0 t * s.w 0 t := by
  unfold uDenom
  rw [Fin.sum_univ_one, Subsingleton.elim n 0, hus, hvs, add_zero, applyShift_zero]

theorem vNum_eval {T : ℕ} (p : FitParams 1 1 T 1) (s : FitState 1 1 T 1)
    (Z : Fin 1 → Fin 1 → Fin T → ℚ) (hus : s.us 0 0 = 0) (hvs : s.vs 0 0 = 0)
    (k : Fin 1) : vNum p s 0 Z k = s.u 0 0 * ∑ t, Z 0 0 t * s.w 0 t := by
  unfold vNum
  rw [Fin.sum_univ_one, Subsingleton.elim k 0, hus, hvs, add_zero, applyShift_zero]

theorem vDenom_eval {T : ℕ} (p : FitParams 1 1 T 1) (s : FitState 1 1 T 1)
    (hus : s.us 0 0 = 0) (hvs : s.vs 0 0 = 0) (k : Fin 1) :
    vDenom p s 0 k = s.u 0 0 * s.u 0 0 * ∑ t, s.w 0 t * s.w 0 t := by
  unfold vDenom
  rw [Fin.sum_univ_one, Subsingleton.elim k 0, hus, hvs, add_zero, applyShift_zero]

theorem exS2_step0 : stepZ exP2 0 exS2a 0 = exS2a := by
  show stepZ exP2 0 exS2a (5 * ((0 : Fin 1) : ℕ)) = exS2a
  rw [stepZ_q0r exP2 0 exS2a 0]
  rw [show (fun n k t => exS2a.X n k t - predict exS2a.u exS2a.v exS2a.w exS2a.us exS2a.vs
      exP2.periodic (((0 : Fin 1) : ℕ) : ℤ) n k t) = (fun _ _ _ => (-1 : ℚ)) from by
    funext n k t
    rw [predict_rank1_skip0]
    show (-1 : ℚ) - 0 = -1
    norm_num]
  have hrat : ∀ n : Fin 1, uRatio exP2 exS2a 0 (fun _ _ _ => (-1 : ℚ)) n = 1 := by
    intro n
    unfold uRatio
    rw [uNum_eval exP2 exS2a _ rfl rfl n, uDenom_eval exP2 exS2a rfl rfl n]
    simp only [Fin.sum_univ_two]
    show (1 : ℚ) * ((-1) * (-1) + (-1) * (-1)) / ((1 : ℚ) * 1 * ((-1) * (-1) + (-1) * (-1))) = 1
    norm_num
  have hnoflip : ¬ ∀ n : Fin 1, uRatio exP2 exS2a 0 (fun _ _ _ => (-1 : ℚ)) n < 0 := by
    intro hall
    have h0 := hall 0
    rw [hrat 0] at h0
    norm_num at h0
  have hvec : uUpdateVec exP2 exS2a 0 (fun _ _ _ => (-1 : ℚ)) = fun _ => 1 := by
    unfold uUpdateVec uFlipVec
    rw [if_neg hnoflip, if_pos (show exP2.u_nonneg = true from rfl)]
    funext n
    rw [hrat n]
    norm_num
  have hW : uUpdateW exP2 exS2a 0 (fun _ _ _ => (-1 : ℚ)) = exS2a.w 0 := by
    unfold uUpdateW
    rw [if_neg hnoflip]
  have hpz : prevent_zeros (fun _ : Fin 1 => (1 : ℚ)) exP2.xi exS2a.rng
      = (fun _ => 1, exS2a.rng) := by
    unfold prevent_zeros
    rw [if_neg (fun hall => by have h0 := hall 0; norm_num at h0)]
  apply FitState.ext2
  · rfl
  · show Function.update exS2a.u 0
      (prevent_zeros (uUpdateVec exP2 exS2a 0 _) exP2.xi exS2a.rng).1 = exS2a.u
    rw [hvec, hpz]
    rw [show (fun _ : Fin 1 => (1 : ℚ)) = exS2a.u 0 from rfl, Function.update_eq_self]
  · rfl
  · show Function.update exS2a.w 0 (uUpdateW exP2 exS2a 0 _) = exS2a.w
    rw [hW, Function.update_eq_self]
  · rfl
  · rfl
  · show (prevent_zeros (uUpdateVec exP2 exS2a 0 _) exP2.xi exS2a.rng).2 = exS2a.rng
    rw [hvec, hpz]

theorem exS2_step1 : stepZ exP2 0 exS2a 1 = exS2a := by
  show stepZ exP2 0 exS2a (5 * ((0 : Fin 1) : ℕ) + 1) = exS2a
  rw [stepZ_q1r exP2 0 exS2a 0]
  rw [show (fun n k t => exS2a.X n k t - predict exS2a.u exS2a.v exS2a.w exS2a.us exS2a.vs
      exP2.periodic (((0 : Fin 1) : ℕ) : ℤ) n k t) = (fun _ _ _ => (-1 : ℚ)) from by
    funext n k t
    rw [predict_rank1_skip0]
    show (-1 : ℚ) - 0 = -1
    norm_num]
  have hrat : ∀ k : Fin 1, vRatio exP2 exS2a 0 (fun _ _ _ => (-1 : ℚ)) k = 1 := by
    intro k
    unfold vRatio
    rw [vNum_eval exP2 exS2a _ rfl rfl k, vDenom_eval exP2 exS2a rfl rfl k]
    simp only [Fin.sum_univ_two]
    show (1 : ℚ) * ((-1) * (-1) + (-1) * (-1)) / ((1 : ℚ) * 1 * ((-1) * (-1) + (-1) * (-1))) = 1
    norm_num
  have hnoflip : ¬ ∀ k : Fin 1, vRatio exP2 exS2a 0 (fun _ _ _ => (-1 : ℚ)) k < 0 := by
    intro hall
    have h0 := hall 0
    rw [hrat 0] at h0
    norm_num at h0
  have hvec : vUpdateVec exP2 exS2a 0 (fun _ _ _ => (-1 : ℚ)) = fun _ => 1 := by
    unfold vUpdateVec vFlipVec
    rw [if_neg hnoflip, if_pos (show exP2.v_nonneg = true from rfl)]
    funext k
    rw [hrat k]
    norm_num
  have hW : vUpdateW exP2 exS2a 0 (fun _ _ _ => (-1 : ℚ)) = exS2a.w 0 := by
    unfold vUpdateW
    rw [if_neg hnoflip]
  have hpz : prevent_zeros (fun _ : Fin 1 => (1 : ℚ)) exP2.xi exS2a.rng
      = (fun _ => 1, exS2a.rng) := by
    unfold prevent_zeros
    rw [if_neg (fun hall => by have h0 := hall 0; norm_num at h0)]
  apply FitState.ext2
  · rfl
  · rfl
  · show Function.update exS2a.v 0
      (prevent_zeros (vUpdateVec exP2 exS2a 0 _) exP2.xi exS2a.rng).1 = exS2a.v
    rw [hvec, hpz]
    rw [show (fun _ : Fin 1 => (1 : ℚ)) = exS2a.v 0 from rfl, Function.update_eq_self]
  · show Function.update exS2a.w 0 (vUpdateW exP2 exS2a 0 _) = exS2a.w
    rw [hW, Function.update_eq_self]
  · rfl
  · rfl
  · show (prevent_zeros (vUpdateVec exP2 exS2a 0 _) exP2.xi exS2a.rng).2 = exS2a.rng
    rw [hvec, hpz]

theorem exS2_outer : outerIter exP2 0 exS2 = exS2a := by
  unfold outerIter innerPass
  show impute exP2 (stepZ exP2 0 (stepZ exP2 0 (stepZ exP2 0 (stepZ exP2 0
    (stepZ exP2 0 exS2 2) 0) 1) 3) 4) = exS2a
  rw [exS2_step2, exS2_step0, exS2_step1,
    stepZ_q3_iter0 exP2 exS2a 3 (by norm_num), stepZ_q4_iter0 exP2 exS2a 4 (by norm_num),
    impute_not_masked exP2 exS2a (by simp [exP2])]

/-! ### Unfolding the outer loop at small fuel -/

theorem fitLoop_zero (p : FitParams N K T R) (s : FitState N K T R) (hist : List ℝ) :
    fitLoop p 0 s hist = (s, hist) := by
  simp only [fitLoop]

theorem fitLoop_one_fst (p : FitParams N K T R) (s : FitState N K T R) (hist : List ℝ) :
    (fitLoop p 1 s hist).1 = outerIter p hist.length s := by
  show (fitLoop p (0 + 1) s hist).1 = outerIter p hist.length s
  rw [fitLoop]
  split
  · rfl
  · rw [fitLoop_zero]

/-! ### Nonnegativity of the padded temporal update -/

theorem wPadNew_nonneg (p : FitParams N K T R) (s : FitState N K T R) (r : Fin R)
    (Z : Fin N → Fin K → Fin T → ℚ) (t : Fin T) : 0 ≤ wPadNew p s r Z t := by
  unfold wPadNew
  rw [show List.range 10 = List.range 9 ++ [9] from List.range_succ 9]
  rw [List.foldl_append]
  simp only [List.foldl_cons, List.foldl_nil]
  exact le_max_left _ _

theorem wUpdate_w_nonneg_padded (p : FitParams N K T R) (s : FitState N K T R)
    (r : Fin R) (Z : Fin N → Fin K → Fin T → ℚ) (hper : p.periodic = false)
    (t : Fin T) : 0 ≤ (wUpdate p s r Z).w r t := by
  unfold wUpdate
  rw [hper]
  rw [if_neg (by simp : ¬(false = true))]
  show 0 ≤ Function.update s.w r (wPadNew p s r Z) r t
  rw [Function.update_same]
  exact wPadNew_nonneg p s r Z t

/-- **C2 (amended).** At the end of every outer iteration of
`fit_shift_cp2`, every entry of `u` is nonnegative when `u_nonneg` is
enabled and every entry of `v` is nonnegative when `v_nonneg` is enabled
(given that the reseeding draws of the random stream are nonnegative, which
holds for `np.random.rand`, and that each visit order is a permutation of
`range(rank * 5)`).  The temporal factor is nonnegative immediately after
each padded temporal update; however — this is the correction — it need not
be nonnegative at the end of an outer iteration, because the sign-flip
normalization of the weight updates can negate it afterwards, and the
periodic solver imposes no sign constraint (see the counterexample). -/
theorem c2_nonneg_invariant_amended (p : FitParams N K T R) (s₀ : FitState N K T R)
    (hxi : ∀ i, 0 ≤ p.xi i) (hperm : ∀ i, (List.range (R * 5)).Perm (p.perm i)) :
    ∀ i : ℕ,
      (p.u_nonneg = true → ∀ (r : Fin R) (n : Fin N), 0 ≤ (iterState p s₀ (i + 1)).u r n)
        ∧ (p.v_nonneg = true → ∀ (r : Fin R) (k : Fin K), 0 ≤ (iterState p s₀ (i + 1)).v r k)
        ∧ (p.periodic = false → ∀ (s : FitState N K T R) (r : Fin R)
            (Z : Fin N → Fin K → Fin T → ℚ) (t : Fin T), 0 ≤ (wUpdate p s r Z).w r t) := by
  intro i
  refine ⟨fun hNN r n => ?_, fun hNN r k => ?_,
    fun hper s r Z t => wUpdate_w_nonneg_padded p s r Z hper t⟩
  · show 0 ≤ (outerIter p i (iterState p s₀ i)).u r n
    unfold outerIter
    rw [impute_u]
    unfold innerPass
    apply foldl_stepZ_u_nonneg p i _ _ r _ hNN hxi n
    exact ((hperm i).mem_iff).mp (List.mem_range.mpr (by have := r.isLt; omega))
  · show 0 ≤ (outerIter p i (iterState p s₀ i)).v r k
    unfold outerIter
    rw [impute_v]
    unfold innerPass
    apply foldl_stepZ_v_nonneg p i _ _ r _ hNN hxi k
    exact ((hperm i).mem_iff).mp (List.mem_range.mpr (by have := r.isLt; omega))

/-- **C2 (counterexample).** The claim "every entry of the temporal factor
`w` is ≥ 0 at the end of every outer iteration, in both boundary modes" is
false on the code: in the concrete periodic run `exP2`/`exS2` (rank 1,
shape (1,1,2), both nonnegativity flags enabled, all shifts zero), the
returned temporal factor after the single outer iteration has the strictly
negative entry `w[0,0] = -1`, because the exact circulant solve writes the
negative residual into `w` and no later step restores nonnegativity. -/
theorem c2_counterexample : ((fit_shift_cp2 exP2 exS2).1).w 0 0 < 0 := by
  have h : (fit_shift_cp2 exP2 exS2).1 = outerIter exP2 0 exS2 := by
    show (fitLoop exP2 1 exS2 []).1 = outerIter exP2 0 exS2
    rw [fitLoop_one_fst]
    rfl
  rw [h, exS2_outer]
  show (-1 : ℚ) < 0
  norm_num

/-- Witness for the amended C2 theorem: its hypotheses hold at the concrete
run `exP2`/`exS2`, and the conclusion gives nonnegativity of the returned
`u` after the first outer iteration. -/
theorem c2_witness :
    (∀ i, 0 ≤ exP2.xi i) ∧ 0 ≤ (iterState exP2 exS2 1).u 0 0 := by
  have hxi : ∀ i, 0 ≤ exP2.xi i := fun i => by norm_num [exP2]
  have hperm : ∀ i, (List.range (1 * 5)).Perm (exP2.perm i) := fun i => by
    show (List.range (1 * 5)).Perm [2, 0, 1, 3, 4]
    decide
  exact ⟨hxi, (c2_nonneg_invariant_amended exP2 exS2 hxi hperm 0).1 rfl 0 0⟩

/-! ### The concrete run behind the reseeding counterexample -/

theorem exS5_step0 : stepZ exP5 0 exS5 0 = exS5a := by
  show stepZ exP5 0 exS5 (5 * ((0 : Fin 1) : ℕ)) = exS5a
  rw [stepZ_q0r exP5 0 exS5 0]
  rw [show (fun n k t => exS5.X n k t - predict exS5.u exS5.v exS5.w exS5.us exS5.vs
      exP5.periodic (((0 : Fin 1) : ℕ) : ℤ) n k t) = (fun _ _ _ => (0 : ℚ)) from by
    funext n k t
    rw [predict_rank1_skip0]
    show (0 : ℚ) - 0 = 0
    norm_num]
  have hrat : ∀ n : Fin 1, uRatio exP5 exS5 0 (fun _ _ _ => (0 : ℚ)) n = 0 := by
    intro n
    unfold uRatio
    rw [uNum_eval exP5 exS5 _ rfl rfl n]
    simp only [Fin.sum_univ_two]
    show ((1 : ℚ) * ((0 : ℚ) * 1 + (0 : ℚ) * 1)) / uDenom exP5 exS5 0 n = 0
    norm_num
  have hnoflip : ¬ ∀ n : Fin 1, uRatio exP5 exS5 0 (fun _ _ _ => (0 : ℚ)) n < 0 := by
    intro hall
    have h0 := hall 0
    rw [hrat 0] at h0
    norm_num at h0
  have hvec : uUpdateVec exP5 exS5 0 (fun _ _ _ => (0 : ℚ)) = fun _ => 0 := by
    unfold uUpdateVec uFlipVec
    rw [if_neg hnoflip, if_pos (show exP5.u_nonneg = true from rfl)]
    funext n
    rw [hrat n]
    norm_num
  have hW : uUpdateW exP5 exS5 0 (fun _ _ _ => (0 : ℚ)) = exS5.w 0 := by
    unfold uUpdateW
    rw [if_neg hnoflip]
  have hpz : prevent_zeros (fun _ : Fin 1 => (0 : ℚ)) exP5.xi exS5.rng
      = (fun i : Fin 1 => exP5.xi (exS5.rng + (i : ℕ)), exS5.rng + 1) := by
    unfold prevent_zeros
    rw [if_pos (fun i => by norm_num)]
  apply FitState.ext2
  · rfl
  · show Function.update exS5.u 0
      (prevent_zeros (uUpdateVec exP5 exS5 0 _) exP5.xi exS5.rng).1 = exS5a.u
    rw [hvec, hpz]
    funext r n
    rw [Subsingleton.elim r (0 : Fin 1), Function.update_same]
    rfl
  · rfl
  · show Function.update exS5.w 0 (uUpdateW exP5 exS5 0 _) = exS5a.w
    rw [hW, Function.update_eq_self]
    rfl
  · rfl
  · rfl
  · show (prevent_zeros (uUpdateVec exP5 exS5 0 _) exP5.xi exS5.rng).2 = exS5a.rng
    rw [hvec, hpz]
    rfl

theorem exS5_step1 : stepZ exP5 0 exS5a 1 = exS5b := by
  show stepZ exP5 0 exS5a (5 * ((0 : Fin 1) : ℕ) + 1) = exS5b
  rw [stepZ_q1r exP5 0 exS5a 0]
  rw [show (fun n k t => exS5a.X n k t - predict exS5a.u exS5a.v exS5a.w exS5a.us exS5a.vs
      exP5.periodic (((0 : Fin 1) : ℕ) : ℤ) n k t) = (fun _ _ _ => (0 : ℚ)) from by
    funext n k t
    rw [predict_rank1_skip0]
    show (0 : ℚ) - 0 = 0
    norm_num]
  have hrat : ∀ k : Fin 1, vRatio exP5 exS5a 0 (fun _ _ _ => (0 : ℚ)) k = 0 := by
    intro k
    unfold vRatio
    rw [vNum_eval exP5 exS5a _ rfl rfl k]
    simp only [Fin.sum_univ_two]
    show (exS5a.u 0 0 * ((0 : ℚ) * 1 + (0 : ℚ) * 1)) / vDenom exP5 exS5a 0 k = 0
    norm_num
  have hnoflip : ¬ ∀ k : Fin 1, vRatio exP5 exS5a 0 (fun _ _ _ => (0 : ℚ)) k < 0 := by
    intro hall
    have h0 := hall 0
    rw [hrat 0] at h0
    norm_num at h0
  have hvec : vUpdateVec exP5 exS5a 0 (fun _ _ _ => (0 : ℚ)) = fun _ => 0 := by
    unfold vUpdateVec vFlipVec
    rw [if_neg hnoflip, if_pos (show exP5.v_nonneg = true from rfl)]
    funext k
    rw [hrat k]
    norm_num
  have hW : vUpdateW exP5 exS5a 0 (fun _ _ _ => (0 : ℚ)) = exS5a.w 0 := by
    unfold vUpdateW
    rw [if_neg hnoflip]
  have hpz : prevent_zeros (fun _ : Fin 1 => (0 : ℚ)) exP5.xi exS5a.rng
      = (fun i : Fin 1 => exP5.xi (exS5a.rng + (i : ℕ)), exS5a.rng + 1) := by
    unfold prevent_zeros
    rw [if_pos (fun i => by norm_num)]
  apply FitState.ext2
  · rfl
  · rfl
  · show Function.update exS5a.v 0
      (prevent_zeros (vUpdateVec exP5 exS5a 0 _) exP5.xi exS5a.rng).1 = exS5b.v
    rw [hvec, hpz]
    funext r k
    rw [Subsingleton.elim r (0 : Fin 1), Function.update_same]
    rfl
  · show Function.update exS5a.w 0 (vUpdateW exP5 exS5a 0 _) = exS5b.w
    rw [hW, Function.update_eq_self]
    rfl
  · rfl
  · rfl
  · show (prevent_zeros (vUpdateVec exP5 exS5a 0 _) exP5.xi exS5a.rng).2 = exS5b.rng
    rw [hvec, hpz]
    rfl

theorem exS5_step2 : stepZ exP5 0 exS5b 2 = exS5c := by
  show stepZ exP5 0 exS5b (5 * ((0 : Fin 1) : ℕ) + 2) = exS5c
  rw [stepZ_q2r exP5 0 exS5b 0]
  unfold wUpdate
  rw [if_pos (show exP5.periodic = true from rfl)]
  have hrhs : wRhsPer exP5 exS5b 0 (fun n k t =>
      exS5b.X n k t - predict exS5b.u exS5b.v exS5b.w exS5b.us exS5b.vs exP5.periodic
        (((0 : Fin 1) : ℕ) : ℤ) n k t) = fun _ : Fin 2 => (0 : ℚ) := by
    funext j
    unfold wRhsPer
    rw [sum11]
    show exS5b.u 0 0 * exS5b.v 0 0 * transShiftPer _ (0 + 0) j = 0
    rw [add_zero, transShiftPer_zero (by norm_num)]
    show exS5b.u 0 0 * exS5b.v 0 0 * (exS5b.X 0 0 j - predict exS5b.u exS5b.v exS5b.w
      exS5b.us exS5b.vs exP5.periodic (((0 : Fin 1) : ℕ) : ℤ) 0 0 j) = 0
    rw [predict_rank1_skip0]
    show exS5b.u 0 0 * exS5b.v 0 0 * ((0 : ℚ) - 0) = 0
    norm_num
  apply FitState.ext2 <;> try rfl
  show Function.update exS5b.w 0 (rojoSolve 2 (wDPer exP5 exS5b 0) (wOffPer exP5 exS5b 0)
    (wRhsPer exP5 exS5b 0 _)) = exS5c.w
  rw [hrhs, rojoSolve_zero_rhs]
  funext r t
  rw [Subsingleton.elim r (0 : Fin 1), Function.update_same]
  rfl

theorem exS5_outer : outerIter exP5 0 exS5 = exS5c := by
  unfold outerIter innerPass
  show impute exP5 (stepZ exP5 0 (stepZ exP5 0 (stepZ exP5 0 (stepZ exP5 0
    (stepZ exP5 0 exS5 0) 1) 3) 4) 2) = exS5c
  rw [exS5_step0, exS5_step1,
    stepZ_q3_iter0 exP5 exS5b 3 (by norm_num), stepZ_q4_iter0 exP5 exS5b 4 (by norm_num),
    exS5_step2, impute_not_masked exP5 exS5c (by simp [exP5])]

/-- **C5 (amended).** After the axis-0 and axis-1 weight updates the source
does reseed an entirely near-zero vector through `_prevent_zeros`: when every
entry has magnitude at most `1e-9` the vector is replaced by fresh uniform
draws (consuming one draw per entry), and otherwise it is left untouched.
The correction: the temporal factor `w[r]` is never passed to
`_prevent_zeros` — the temporal update consumes no randomness at all — so
`w[r]` can be left entirely (near-)zero by its own update step (see the
counterexample). -/
theorem c5_reseed_amended (p : FitParams N K T R) :
    (∀ (s : FitState N K T R) (r : Fin R) (Z : Fin N → Fin K → Fin T → ℚ),
        (wUpdate p s r Z).rng = s.rng ∧ (wUpdate p s r Z).u = s.u ∧ (wUpdate p s r Z).v = s.v)
    ∧ (∀ (m : ℕ) (x : Fin m → ℚ) (xi : ℕ → ℚ) (pos : ℕ),
        (∀ i, |x i| ≤ 1e-9) →
          prevent_zeros x xi pos = (fun i : Fin m => xi (pos + (i : ℕ)), pos + m))
    ∧ (∀ (m : ℕ) (x : Fin m → ℚ) (xi : ℕ → ℚ) (pos : ℕ),
        (∃ i, 1e-9 < |x i|) → prevent_zeros x xi pos = (x, pos)) := by
  refine ⟨fun s r Z => ⟨wUpdate_rng p s r Z, wUpdate_u p s r Z, wUpdate_v p s r Z⟩,
    fun m x xi pos hx => ?_, fun m x xi pos hx => ?_⟩
  · unfold prevent_zeros
    rw [if_pos hx]
  · unfold prevent_zeros
    obtain ⟨i, hi⟩ := hx
    rw [if_neg (fun hall => absurd (hall i) (not_le.mpr hi))]

/-- **C5 (counterexample).** The claim "whenever every entry of `u[r]`,
`v[r]` or `w[r]` falls below `1e-9` in magnitude, the vector is reseeded in
that same step" is false for the temporal factor: in the concrete run
`exP5`/`exS5` the temporal update writes the exactly-zero profile into
`w[0]` and no reseeding happens — the returned `w[0]` is identically `0`
(entirely below the threshold) and the random cursor stands at `2`, the two
draws consumed by the `u` and `v` reseeds; a reseed of `w` would have
consumed two further draws (of value `1/2`). -/
theorem c5_counterexample :
    (∀ t : Fin 2, |((fit_shift_cp2 exP5 exS5).1).w 0 t| ≤ 1e-9)
    ∧ ((fit_shift_cp2 exP5 exS5).1).w 0 0 = 0
    ∧ ((fit_shift_cp2 exP5 exS5).1).rng = 2 := by
  have h : (fit_shift_cp2 exP5 exS5).1 = exS5c := by
    show (fitLoop exP5 1 exS5 []).1 = exS5c
    rw [fitLoop_one_fst]
    show outerIter exP5 0 exS5 = exS5c
    exact exS5_outer
  rw [h]
  refine ⟨fun t => ?_, rfl, rfl⟩
  show |(0 : ℚ)| ≤ 1e-9
  norm_num

/-- Witness for the amended C5 theorem: the reseeding branch of
`_prevent_zeros` at a concrete all-zero vector. -/
theorem c5_witness :
    (∀ i : Fin 1, |(0 : ℚ)| ≤ 1e-9)
    ∧ prevent_zeros (fun _ : Fin 1 => (0 : ℚ)) (fun _ => 1/2) 0
        = (fun _ : Fin 1 => (1/2 : ℚ), 1) :=
  ⟨fun _ => by norm_num,
    (c5_reseed_amended exP5).2.1 1 (fun _ => (0 : ℚ)) (fun _ => 1/2) 0 (fun _ => by norm_num)⟩

/-! ### The outer-loop contract (convergence and termination) -/

theorem histUpTo_len (p : FitParams N K T R) (s₀ : FitState N K T R) (n : ℕ) :
    (histUpTo p s₀ n).length = n := by
  unfold histUpTo
  rw [List.length_map, List.length_range]

theorem histUpTo_succ (p : FitParams N K T R) (s₀ : FitState N K T R) (n : ℕ) :
    histUpTo p s₀ (n + 1) = histUpTo p s₀ n ++ [lossSeq p s₀ n] := by
  unfold histUpTo
  rw [List.range_succ, List.map_append]
  rfl

theorem histUpTo_take (p : FitParams N K T R) (s₀ : FitState N K T R) (j n : ℕ)
    (h : j ≤ n) : (histUpTo p s₀ n).take j = histUpTo p s₀ j := by
  unfold histUpTo
  rw [← List.map_take, List.take_range, min_eq_left h]

theorem fitLoop_contract (p : FitParams N K T R) (s₀ : FitState N K T R) :
    ∀ fuel n : ℕ, (∀ j ≤ n, ¬ convergedAfter p (histUpTo p s₀ j)) →
      ∃ L, fitLoop p fuel (iterState p s₀ n) (histUpTo p s₀ n)
            = (iterState p s₀ (n + L), histUpTo p s₀ (n + L))
        ∧ L ≤ fuel
        ∧ (L < fuel → convergedAfter p (histUpTo p s₀ (n + L)))
        ∧ ∀ j < n + L, ¬ convergedAfter p (histUpTo p s₀ j) := by
  intro fuel
  induction fuel with
  | zero =>
    intro n h
    refine ⟨0, by rw [Nat.add_zero, fitLoop_zero], le_refl 0,
      fun h0 => absurd h0 (by omega), fun j hj => h j (by omega)⟩
  | succ fuel ih =>
    intro n h
    have hstate : outerIter p (histUpTo p s₀ n).length (iterState p s₀ n)
        = iterState p s₀ (n + 1) := by
      rw [histUpTo_len]
      rfl
    have hhist : histUpTo p s₀ n ++ [lossOf p (iterState p s₀ (n + 1))]
        = histUpTo p s₀ (n + 1) := by
      rw [histUpTo_succ]
      rfl
    by_cases hc : convergedAfter p (histUpTo p s₀ (n + 1))
    · refine ⟨1, ?_, by omega, fun _ => hc, fun j hj => ?_⟩
      · rw [fitLoop, hstate, hhist, if_pos hc]
      · exact h j (by omega)
    · obtain ⟨L, hEq, hLe, hConv, hAll⟩ := ih (n + 1) (fun j hj => by
        rcases Nat.lt_or_ge j (n + 1) with h1 | h1
        · exact h j (by omega)
        · have hj1 : j = n + 1 := by omega
          rw [hj1]
          exact hc)
      refine ⟨L + 1, ?_, by omega, fun hlt => ?_, fun j hj => ?_⟩
      · rw [fitLoop, hstate, hhist, if_neg hc, hEq,
          show n + 1 + L = n + (L + 1) from by omega]
      · rw [show n + (L + 1) = n + 1 + L from by omega]
        exact hConv (by omega)
      · exact hAll j (by omega)

/-- **C1.** The outer loop of `fit_shift_cp2` runs at most `max_iter` outer
iterations and the call always returns the `(u, v, w, u_s, v_s, loss_hist)`
tuple (the embedding is a total function, matching the source, which raises
on no path), appending exactly one loss value per completed outer iteration
(`loss_hist` is exactly the first `L` values of the per-iteration loss
sequence, and the returned state is the `L`-th iterate); convergence is
declared exactly when the completed-iteration count exceeds
`max(patience, min_iter)` and `|loss_hist[-patience] - loss_hist[-1]| < tol`
(the predicate `convergedAfter`), the loop stops at the first of convergence
(no proper prefix of the history satisfies the predicate) or reaching
`max_iter`. -/
theorem c1_loop_contract (p : FitParams N K T R) (s₀ : FitState N K T R) :
    (fit_shift_cp2 p s₀).2.length ≤ p.max_iter
    ∧ (fit_shift_cp2 p s₀).1 = iterState p s₀ (fit_shift_cp2 p s₀).2.length
    ∧ (fit_shift_cp2 p s₀).2 = histUpTo p s₀ (fit_shift_cp2 p s₀).2.length
    ∧ ((fit_shift_cp2 p s₀).2.length < p.max_iter
        → convergedAfter p (fit_shift_cp2 p s₀).2)
    ∧ ∀ j < (fit_shift_cp2 p s₀).2.length,
        ¬ convergedAfter p ((fit_shift_cp2 p s₀).2.take j) := by
  obtain ⟨L, hEq, hLe, hConv, hAll⟩ := fitLoop_contract p s₀ p.max_iter 0 (fun j hj => by
    have hj0 : j = 0 := by omega
    rw [hj0]
    intro hcv
    have h1 := hcv.1
    rw [histUpTo_len] at h1
    omega)
  have hrun : fit_shift_cp2 p s₀ = (iterState p s₀ L, histUpTo p s₀ L) := by
    show fitLoop p p.max_iter s₀ [] = _
    have h0 : fitLoop p p.max_iter s₀ []
        = fitLoop p p.max_iter (iterState p s₀ 0) (histUpTo p s₀ 0) := rfl
    rw [h0, hEq]
    rw [show (0 : ℕ) + L = L from by omega]
  have hlen : (fit_shift_cp2 p s₀).2.length = L := by
    rw [hrun, histUpTo_len]
  refine ⟨by rw [hlen]; exact hLe, ?_, ?_, ?_, ?_⟩
  · rw [hlen, hrun]
  · rw [hlen, hrun]
  · rw [hlen, hrun]
    intro hlt
    have := hConv hlt
    rwa [show (0 : ℕ) + L = L from by omega] at this
  · intro j hj
    rw [hlen] at hj
    rw [hrun]
    show ¬ convergedAfter p ((histUpTo p s₀ L).take j)
    rw [histUpTo_take p s₀ j L (by omega)]
    exact hAll j (by omega)

theorem fitLoop_one_snd (p : FitParams N K T R) (s : FitState N K T R) (hist : List ℝ) :
    (fitLoop p 1 s hist).2 = hist ++ [lossOf p (outerIter p hist.length s)] := by
  show (fitLoop p (0 + 1) s hist).2 = hist ++ [lossOf p (outerIter p hist.length s)]
  rw [fitLoop]
  split
  · rfl
  · rw [fitLoop_zero]

/-- Witness for C1: in the concrete run `exP1`/`exS1` (one outer iteration)
the history is nonempty, and the loop contract yields that no proper prefix
of the returned history satisfies the convergence predicate. -/
theorem c1_witness :
    0 < (fit_shift_cp2 exP1 exS1).2.length
    ∧ ¬ convergedAfter exP1 ((fit_shift_cp2 exP1 exS1).2.take 0) := by
  have hlen : 0 < (fit_shift_cp2 exP1 exS1).2.length := by
    show 0 < (fitLoop exP1 1 exS1 []).2.length
    rw [fitLoop_one_snd]
    simp
  exact ⟨hlen, (c1_loop_contract exP1 exS1).2.2.2.2 0 hlen⟩

/-! ### Characterization of the Gershgorin fold (padded temporal update) -/

theorem foldl_max_init (f : ℕ → ℚ) (l : List ℕ) (L0 : ℚ) :
    L0 ≤ l.foldl (fun L i => max L (f i)) L0 := by
  induction l generalizing L0 with
  | nil => exact le_refl _
  | cons a l ih => exact le_trans (le_max_left _ _) (ih (max L0 (f a)))

theorem foldl_max_mem (f : ℕ → ℚ) (l : List ℕ) (L0 : ℚ) (i : ℕ) (hi : i ∈ l) :
    f i ≤ l.foldl (fun L j => max L (f j)) L0 := by
  induction l generalizing L0 with
  | nil => cases hi
  | cons a l ih =>
    rcases List.mem_cons.mp hi with h1 | h2
    · rw [List.foldl_cons, h1]
      exact le_trans (le_max_right _ _) (foldl_max_init f l _)
    · rw [List.foldl_cons]
      exact ih _ h2

theorem foldl_max_eq (f : ℕ → ℚ) (l : List ℕ) (L0 : ℚ) :
    l.foldl (fun L i => max L (f i)) L0 = L0
      ∨ ∃ i ∈ l, l.foldl (fun L i => max L (f i)) L0 = f i := by
  induction l generalizing L0 with
  | nil => exact Or.inl rfl
  | cons a l ih =>
    rw [List.foldl_cons]
    rcases ih (max L0 (f a)) with h | ⟨i, hi, heq⟩
    · rw [h]
      rcases max_choice L0 (f a) with hm | hm
      · exact Or.inl hm
      · exact Or.inr ⟨a, List.mem_cons_self a l, hm⟩
    · exact Or.inr ⟨i, List.mem_cons_of_mem a hi, heq⟩

theorem gershL_rows (T : ℕ) (hT : 2 ≤ T) (b1 b0 : ℕ → ℚ) (h0 : b0 0 = 0)
    (hT0 : b0 T = 0) :
    (∀ i < T, b1 i + b0 i + b0 (i + 1) ≤ gershL T b1 b0)
      ∧ ∃ i < T, gershL T b1 b0 = b1 i + b0 i + b0 (i + 1) := by
  constructor
  · intro i hi
    unfold gershL
    by_cases hcase : 1 ≤ i ∧ i < T - 1
    · exact foldl_max_mem _ _ _ i (List.mem_range'_1.mpr ⟨hcase.1, by omega⟩)
    · have hor : i = 0 ∨ i = T - 1 := by omega
      rcases hor with h | h
      · subst h
        rw [h0]
        calc b1 0 + 0 + b0 1 = b1 0 + b0 1 := by ring
          _ ≤ max (b1 0 + b0 1) (b1 (T - 1) + b0 (T - 1)) := le_max_left _ _
          _ ≤ _ := foldl_max_init _ _ _
      · subst h
        rw [show T - 1 + 1 = T from by omega, hT0]
        calc b1 (T - 1) + b0 (T - 1) + 0 = b1 (T - 1) + b0 (T - 1) := by ring
          _ ≤ max (b1 0 + b0 1) (b1 (T - 1) + b0 (T - 1)) := le_max_right _ _
          _ ≤ _ := foldl_max_init _ _ _
  · unfold gershL
    rcases foldl_max_eq (fun i => b1 i + b0 i + b0 (i + 1)) (List.range' 1 (T - 2))
        (max (b1 0 + b0 1) (b1 (T - 1) + b0 (T - 1))) with h | ⟨i, hi, heq⟩
    · rcases max_choice (b1 0 + b0 1) (b1 (T - 1) + b0 (T - 1)) with hm | hm
      · refine ⟨0, by omega, ?_⟩
        rw [h, hm, h0]
        ring
      · refine ⟨T - 1, by omega, ?_⟩
        rw [h, hm, show T - 1 + 1 = T from by omega, hT0]
        ring
    · exact ⟨i, by have := List.mem_range'_1.mp hi; omega, heq⟩

theorem foldl_const_iterate {α : Type} (g : α → α) (x : α) (n : ℕ) :
    (List.range n).foldl (fun a _ => g a) x = g^[n] x := by
  induction n with
  | zero => rfl
  | succ n ih =>
    rw [List.range_succ, List.foldl_append, ih, List.foldl_cons, List.foldl_nil,
      Function.iterate_succ_apply']

/-- **C6.** In the padded boundary mode, the temporal-factor update for a
component `r` adds the ridge `1e-8` to the diagonal row of the assembled
banded Gram matrix before the accumulation (the stated form of `wBand1`),
bounds the Lipschitz constant by a Gershgorin row-sum maximum taken over all
`T` rows of the banded system (the fold `gershL` dominates every row sum and
is attained at one of them), and performs exactly ten projected gradient
steps `w ← max(0, w - (0.95 / L)·(WtW·w - rhs))`, projecting onto the
nonnegative orthant after every step (the update equals the tenfold iterate
of `pgStep`). -/
theorem c6_padded_temporal_update (p : FitParams N K T R) (s : FitState N K T R)
    (r : Fin R) (Z : Fin N → Fin K → Fin T → ℚ) (hper : p.periodic = false)
    (hT : 2 ≤ T) :
    (wUpdate p s r Z).w r
      = (pgStep (wBand1 p s r) (wBand0 p s r) (wRhsPad p s r Z)
          (0.95 / gershL T (extBand (wBand1 p s r)) (extBand (wBand0 p s r))))^[10] (s.w r)
    ∧ wBand1 p s r = (fun j => 1e-8 + ∑ n, ∑ k,
        (s.u r n * s.v r k) * (s.u r n * s.v r k) * gramDiag (s.us r n + s.vs r k) j)
    ∧ (∀ i < T, extBand (wBand1 p s r) i + extBand (wBand0 p s r) i
          + extBand (wBand0 p s r) (i + 1)
        ≤ gershL T (extBand (wBand1 p s r)) (extBand (wBand0 p s r)))
    ∧ ∃ i < T, gershL T (extBand (wBand1 p s r)) (extBand (wBand0 p s r))
        = extBand (wBand1 p s r) i + extBand (wBand0 p s r) i
            + extBand (wBand0 p s r) (i + 1) := by
  have h0 : extBand (wBand0 p s r) 0 = 0 := by
    unfold extBand
    rw [dif_pos (by omega : 0 < T)]
    unfold wBand0
    have hg : ∀ sh : ℚ, gramSuper (T := T) sh ⟨0, by omega⟩ = 0 := fun sh => by
      unfold gramSuper
      rw [dif_neg (by show ¬ 0 < (0 : ℕ); omega)]
    simp only [hg, mul_zero, Finset.sum_const_zero]
  have hT0 : extBand (wBand0 p s r) T = 0 := by
    unfold extBand
    rw [dif_neg (by omega)]
  obtain ⟨hle, hex⟩ := gershL_rows T hT (extBand (wBand1 p s r)) (extBand (wBand0 p s r)) h0 hT0
  refine ⟨?_, rfl, hle, hex⟩
  unfold wUpdate
  rw [hper, if_neg (by simp : ¬(false = true))]
  show Function.update s.w r (wPadNew p s r Z) r = _
  rw [Function.update_same]
  unfold wPadNew
  exact foldl_const_iterate _ _ 10

/-- Witness for C6 at a concrete configuration with `T = 2` and padded
boundary: the hypotheses hold and the temporal update is the tenfold
projected-gradient iterate. -/
theorem c6_witness :
    exP6.periodic = false ∧ 2 ≤ 2
    ∧ (wUpdate exP6 exS6 0 (fun _ _ _ => 0)).w 0
      = (pgStep (wBand1 exP6 exS6 0) (wBand0 exP6 exS6 0)
          (wRhsPad exP6 exS6 0 (fun _ _ _ => 0))
          (0.95 / gershL 2 (extBand (wBand1 exP6 exS6 0)) (extBand (wBand0 exP6 exS6 0))))^[10]
        (exS6.w 0) :=
  ⟨rfl, by norm_num,
    (c6_padded_temporal_update exP6 exS6 0 (fun _ _ _ => 0) rfl (by norm_num)).1⟩

/-! ### The random shift search returns the full-loss argmin -/

theorem shiftRowLoss_nonneg {M T : ℕ} (Z : Fin M → Fin T → ℚ) (y : ℚ)
    (f f_s : Fin M → ℚ) (w : Fin T → ℚ) (per : Bool) (s : ℚ) (m : Fin M) :
    0 ≤ shiftRowLoss Z y f f_s w per s m := by
  unfold shiftRowLoss
  exact Finset.sum_nonneg (fun t _ => mul_self_nonneg _)

theorem rowLossList_sum {M T : ℕ} (Z : Fin M → Fin T → ℚ) (y : ℚ)
    (f f_s : Fin M → ℚ) (w : Fin T → ℚ) (per : Bool) (s : ℚ) :
    ((List.finRange M).map (shiftRowLoss Z y f f_s w per s)).sum
      = fullShiftLoss Z y f f_s w per s := by
  rw [fullShiftLoss, Fin.sum_univ_def]

theorem accumLoss_none (l : List ℚ) (acc : ℚ) : accumLoss none l acc = acc + l.sum := by
  induction l generalizing acc with
  | nil => simp [accumLoss]
  | cons x ls ih =>
    show (if bestLt none (acc + x) then acc + x else accumLoss none ls (acc + x)) = _
    rw [if_neg (by unfold bestLt; simp), ih, List.sum_cons]
    ring

theorem accumLoss_some_cases (b : ℚ) (l : List ℚ) (hl : ∀ x ∈ l, 0 ≤ x) (acc : ℚ) :
    accumLoss (some b) l acc = acc + l.sum
      ∨ (b < accumLoss (some b) l acc ∧ accumLoss (some b) l acc ≤ acc + l.sum) := by
  induction l generalizing acc with
  | nil => left; simp [accumLoss]
  | cons x ls ih =>
    have hx : 0 ≤ x := hl x (List.mem_cons_self _ _)
    have hls : ∀ y ∈ ls, 0 ≤ y := fun y hy => hl y (List.mem_cons_of_mem _ hy)
    have hsum : 0 ≤ ls.sum := List.sum_nonneg hls
    have hunf : accumLoss (some b) (x :: ls) acc
        = if bestLt (some b) (acc + x) then acc + x else accumLoss (some b) ls (acc + x) := rfl
    rw [hunf]
    by_cases hbr : b < acc + x
    · rw [if_pos (by unfold bestLt; simpa using hbr)]
      right
      refine ⟨hbr, ?_⟩
      rw [List.sum_cons]
      linarith
    · rw [if_neg (by unfold bestLt; simpa using hbr)]
      rcases ih hls (acc + x) with h | ⟨h1, h2⟩
      · left
        rw [h, List.sum_cons]
        ring
      · right
        refine ⟨h1, ?_⟩
        rw [List.sum_cons]
        linarith

theorem accumLoss_accept_none {M T : ℕ} (Z : Fin M → Fin T → ℚ) (y : ℚ)
    (f f_s : Fin M → ℚ) (w : Fin T → ℚ) (per : Bool) (s : ℚ) :
    accumLoss none ((List.finRange M).map (shiftRowLoss Z y f f_s w per s)) 0
      = fullShiftLoss Z y f f_s w per s := by
  rw [accumLoss_none, rowLossList_sum, zero_add]

theorem accumLoss_accept_some {M T : ℕ} (Z : Fin M → Fin T → ℚ) (y : ℚ)
    (f f_s : Fin M → ℚ) (w : Fin T → ℚ) (per : Bool) (s : ℚ) (b : ℚ) :
    (ltBest (accumLoss (some b) ((List.finRange M).map (shiftRowLoss Z y f f_s w per s)) 0)
        (some b) = true ↔ fullShiftLoss Z y f f_s w per s < b)
    ∧ (ltBest (accumLoss (some b) ((List.finRange M).map (shiftRowLoss Z y f f_s w per s)) 0)
          (some b) = true →
        accumLoss (some b) ((List.finRange M).map (shiftRowLoss Z y f f_s w per s)) 0
          = fullShiftLoss Z y f f_s w per s) := by
  have hl : ∀ x ∈ (List.finRange M).map (shiftRowLoss Z y f f_s w per s), 0 ≤ x := by
    intro x hx
    obtain ⟨m, _, hm⟩ := List.mem_map.mp hx
    rw [← hm]
    exact shiftRowLoss_nonneg Z y f f_s w per s m
  have hcase := accumLoss_some_cases b _ hl 0
  rw [zero_add, rowLossList_sum] at hcase
  rcases hcase with h | ⟨h1, h2⟩
  · constructor
    · unfold ltBest
      rw [h]
      simp
    · intro _
      exact h
  · constructor
    · unfold ltBest
      constructor
      · intro hlt
        simp only [decide_eq_true_eq] at hlt
        exact absurd hlt (not_lt.mpr (le_of_lt h1))
      · intro hlt
        exact absurd hlt (not_lt.mpr (le_trans (le_of_lt h1) h2))
    · intro hacc
      unfold ltBest at hacc
      simp only [decide_eq_true_eq] at hacc
      exact absurd hacc (not_lt.mpr (le_of_lt h1))

theorem fitShiftStep_none {M T : ℕ} (Z : Fin M → Fin T → ℚ) (y : ℚ)
    (f f_s : Fin M → ℚ) (w : Fin T → ℚ) (per : Bool) (sh s : ℚ) :
    fitShiftStep Z y f f_s w per (none, sh) s
      = (some (accumLoss none ((List.finRange M).map (shiftRowLoss Z y f f_s w per s)) 0), s) :=
  rfl

theorem fitShiftStep_pair {M T : ℕ} (Z : Fin M → Fin T → ℚ) (y : ℚ)
    (f f_s : Fin M → ℚ) (w : Fin T → ℚ) (per : Bool) (b sh s : ℚ) :
    fitShiftStep Z y f f_s w per (some b, sh) s
      = if ltBest (accumLoss (some b)
            ((List.finRange M).map (shiftRowLoss Z y f f_s w per s)) 0) (some b) = true
        then (some (accumLoss (some b)
            ((List.finRange M).map (shiftRowLoss Z y f f_s w per s)) 0), s)
        else (some b, sh) :=
  rfl

theorem fitShift_fold_invariant {M T : ℕ} (Z : Fin M → Fin T → ℚ) (y : ℚ)
    (f f_s : Fin M → ℚ) (w : Fin T → ℚ) (per : Bool) (cand : ℕ → ℚ) :
    ∀ j, 1 ≤ j →
      ∃ j0, j0 < j
        ∧ (List.range j).foldl (fun st i => fitShiftStep Z y f f_s w per st (cand i)) (none, 0)
            = (some (fullShiftLoss Z y f f_s w per (cand j0)), cand j0)
        ∧ (∀ i < j, fullShiftLoss Z y f f_s w per (cand j0)
            ≤ fullShiftLoss Z y f f_s w per (cand i))
        ∧ (∀ i < j0, fullShiftLoss Z y f f_s w per (cand j0)
            < fullShiftLoss Z y f f_s w per (cand i)) := by
  intro j
  induction j with
  | zero => intro h; exact absurd h (by omega)
  | succ j ih =>
    intro _
    by_cases hj : 1 ≤ j
    · obtain ⟨j0, hj0lt, hstate, hmin, hstrict⟩ := ih hj
      have hstep : (List.range (j + 1)).foldl
            (fun st i => fitShiftStep Z y f f_s w per st (cand i)) (none, 0)
          = fitShiftStep Z y f f_s w per
              ((List.range j).foldl (fun st i => fitShiftStep Z y f f_s w per st (cand i))
                (none, 0)) (cand j) := by
        rw [List.range_succ, List.foldl_append, List.foldl_cons, List.foldl_nil]
      have haccept := accumLoss_accept_some Z y f f_s w per (cand j)
        (fullShiftLoss Z y f f_s w per (cand j0))
      by_cases hacc : fullShiftLoss Z y f f_s w per (cand j)
          < fullShiftLoss Z y f f_s w per (cand j0)
      · have hbool := haccept.1.mpr hacc
        refine ⟨j, by omega, ?_, ?_, ?_⟩
        · rw [hstep, hstate, fitShiftStep_pair, if_pos hbool, haccept.2 hbool]
        · intro i hi
          rcases Nat.lt_or_ge i j with h1 | h1
          · exact le_of_lt (lt_of_lt_of_le hacc (hmin i h1))
          · have hij : i = j := by omega
            rw [hij]
        · intro i hi
          exact lt_of_lt_of_le hacc (hmin i hi)
      · have hbool : ¬ (ltBest (accumLoss (some (fullShiftLoss Z y f f_s w per (cand j0)))
            ((List.finRange M).map (shiftRowLoss Z y f f_s w per (cand j))) 0)
              (some (fullShiftLoss Z y f f_s w per (cand j0))) = true) :=
          fun hb => hacc (haccept.1.mp hb)
        refine ⟨j0, by omega, ?_, ?_, hstrict⟩
        · rw [hstep, hstate, fitShiftStep_pair, if_neg hbool]
        · intro i hi
          rcases Nat.lt_or_ge i j with h1 | h1
          · exact hmin i h1
          · have hij : i = j := by omega
            rw [hij]
            exact not_lt.mp hacc
    · have hj0 : j = 0 := by omega
      subst hj0
      refine ⟨0, by omega, ?_, ?_, ?_⟩
      · rw [show List.range 1 = [0] from rfl, List.foldl_cons, List.foldl_nil,
          fitShiftStep_none, accumLoss_accept_none]
      · intro i hi
        have hi0 : i = 0 := by omega
        rw [hi0]
      · intro i hi
        exact absurd hi (by omega)

/-- **C4.** `_fit_shift` evaluates exactly `n_iter` candidate shifts:
candidate `0` is the incoming seed shift and candidates `1 .. n_iter - 1`
are the uniform draws over `[-max_shift, max_shift]` (`candShift`).  It
returns the shift value (not the loss) of the candidate with minimal total
squared-residual loss over the block's rows (`fullShiftLoss`), ties resolved
in favor of the earliest candidate (all earlier candidates have strictly
larger full loss).  Since `fit_shift` is defined with the early row-loop
break of the source and is here characterized purely by full losses, the
early termination never changes which candidate is returned. -/
theorem c4_shift_search {M T : ℕ} (Z : Fin M → Fin T → ℚ) (y : ℚ)
    (f f_s : Fin M → ℚ) (w : Fin T → ℚ) (maxShift : ℚ) (per : Bool) (nIter : ℕ)
    (initShift : ℚ) (xi : ℕ → ℚ) (pos : ℕ) (hn : 1 ≤ nIter) :
    candShift maxShift initShift xi pos 0 = initShift
    ∧ ∃ j, j < nIter
        ∧ fit_shift Z y f f_s w maxShift per nIter initShift xi pos
            = candShift maxShift initShift xi pos j
        ∧ (∀ i < nIter, fullShiftLoss Z y f f_s w per (candShift maxShift initShift xi pos j)
            ≤ fullShiftLoss Z y f f_s w per (candShift maxShift initShift xi pos i))
        ∧ (∀ i < j, fullShiftLoss Z y f f_s w per (candShift maxShift initShift xi pos j)
            < fullShiftLoss Z y f f_s w per (candShift maxShift initShift xi pos i)) := by
  obtain ⟨j0, hlt, hstate, hmin, hstrict⟩ :=
    fitShift_fold_invariant Z y f f_s w per (candShift maxShift initShift xi pos) nIter hn
  refine ⟨rfl, j0, hlt, ?_, hmin, hstrict⟩
  unfold fit_shift
  rw [hstate]

/-- Witness for C4 at a concrete one-candidate search. -/
theorem c4_witness :
    1 ≤ 1
    ∧ (candShift (1/5 : ℚ) 100 (fun _ => 0) 0 0 = 100
        ∧ ∃ j, j < 1
          ∧ fit_shift exZ3 1 exF3 exFs3 exW3 (1/5) false 1 100 (fun _ => 0) 0
              = candShift (1/5) 100 (fun _ => 0) 0 j
          ∧ (∀ i < 1, fullShiftLoss exZ3 1 exF3 exFs3 exW3 false
                (candShift (1/5) 100 (fun _ => 0) 0 j)
              ≤ fullShiftLoss exZ3 1 exF3 exFs3 exW3 false
                (candShift (1/5) 100 (fun _ => 0) 0 i))
          ∧ (∀ i < j, fullShiftLoss exZ3 1 exF3 exFs3 exW3 false
                (candShift (1/5) 100 (fun _ => 0) 0 j)
              < fullShiftLoss exZ3 1 exF3 exFs3 exW3 false
                (candShift (1/5) 100 (fun _ => 0) 0 i))) :=
  ⟨by norm_num, c4_shift_search exZ3 1 exF3 exFs3 exW3 (1/5) false 1 100 (fun _ => 0) 0
    (by norm_num)⟩

/-! ### Shift-bound invariant machinery -/

theorem stepZ_q3r (p : FitParams N K T R) (c : ℕ) (s : FitState N K T R) (r : Fin R)
    (hc : 0 < c) :
    stepZ p c s (5 * (r : ℕ) + 3) = usUpdate p s r (fun n k t =>
      s.X n k t - predict s.u s.v s.w s.us s.vs p.periodic ((r : ℕ) : ℤ) n k t) := by
  unfold stepZ
  have hdiv : (5 * (r : ℕ) + 3) / 5 = (r : ℕ) := by omega
  rw [dif_pos (by have := r.isLt; omega : (5 * (r : ℕ) + 3) / 5 < R)]
  rw [if_neg (by omega), if_neg (by omega), if_neg (by omega),
    if_pos (by omega : (5 * (r : ℕ) + 3) % 5 = 3), if_pos hc]
  simp only [hdiv, Fin.eta]

theorem stepZ_q4r (p : FitParams N K T R) (c : ℕ) (s : FitState N K T R) (r : Fin R)
    (hc : 0 < c) :
    stepZ p c s (5 * (r : ℕ) + 4) = vsUpdate p s r (fun n k t =>
      s.X n k t - predict s.u s.v s.w s.us s.vs p.periodic ((r : ℕ) : ℤ) n k t) := by
  unfold stepZ
  have hdiv : (5 * (r : ℕ) + 4) / 5 = (r : ℕ) := by omega
  rw [dif_pos (by have := r.isLt; omega : (5 * (r : ℕ) + 4) / 5 < R)]
  rw [if_neg (by omega), if_neg (by omega), if_neg (by omega), if_neg (by omega),
    if_pos hc]
  simp only [hdiv, Fin.eta]

theorem candShift_bound (maxShift init : ℚ) (xi : ℕ → ℚ) (pos : ℕ)
    (hm : 0 ≤ maxShift) (hinit : |init| ≤ maxShift)
    (hxi : ∀ i, 0 ≤ xi i ∧ xi i ≤ 1) (i : ℕ) :
    |candShift maxShift init xi pos i| ≤ maxShift := by
  unfold candShift
  split
  · exact hinit
  · rw [abs_le]
    obtain ⟨hlo, hhi⟩ := hxi (pos + (i - 1))
    constructor <;> nlinarith

theorem fit_shift_bound {M T : ℕ} (Z : Fin M → Fin T → ℚ) (y : ℚ)
    (f f_s : Fin M → ℚ) (w : Fin T → ℚ) (maxShift : ℚ) (per : Bool) (nIter : ℕ)
    (init : ℚ) (xi : ℕ → ℚ) (pos : ℕ) (hm : 0 ≤ maxShift) (hinit : |init| ≤ maxShift)
    (hxi : ∀ i, 0 ≤ xi i ∧ xi i ≤ 1) :
    |fit_shift Z y f f_s w maxShift per nIter init xi pos| ≤ maxShift := by
  unfold fit_shift
  have key : ∀ (l : List ℚ) (st : Option ℚ × ℚ), |st.2| ≤ maxShift →
      (∀ x ∈ l, |x| ≤ maxShift) →
      |(l.foldl (fitShiftStep Z y f f_s w per) st).2| ≤ maxShift := by
    intro l
    induction l with
    | nil => exact fun st h _ => h
    | cons a l ih =>
      intro st h hl
      rw [List.foldl_cons]
      apply ih
      · unfold fitShiftStep
        split
        · exact hl a (List.mem_cons_self _ _)
        · exact h
      · exact fun x hx => hl x (List.mem_cons_of_mem _ hx)
  rw [← List.foldl_map]
  apply key
  · show |(0 : ℚ)| ≤ maxShift
    simpa using hm
  · intro x hx
    obtain ⟨i, _, hi⟩ := List.mem_map.mp hx
    rw [← hi]
    exact candShift_bound maxShift init xi pos hm hinit hxi i

theorem stepZ_us_bound (p : FitParams N K T R) (c : ℕ) (s : FitState N K T R) (z : ℕ)
    (hm0 : 0 ≤ p.max_shift_axis0) (hxi : ∀ i, 0 ≤ p.xi i ∧ p.xi i ≤ 1)
    (h : ∀ r n, |s.us r n| ≤ p.max_shift_axis0 * (T : ℚ)) (r : Fin R) (n : Fin N) :
    |(stepZ p c s z).us r n| ≤ p.max_shift_axis0 * (T : ℚ) := by
  by_cases hz : z = 5 * (r : ℕ) + 3
  · subst hz
    by_cases hc : 0 < c
    · rw [stepZ_q3r p c s r hc]
      show |Function.update s.us r _ r n| ≤ _
      rw [Function.update_same]
      exact fit_shift_bound _ _ _ _ _ _ _ _ _ _ _
        (mul_nonneg hm0 (Nat.cast_nonneg T)) (h r n) hxi
    · have hc0 : c = 0 := by omega
      subst hc0
      rw [stepZ_q3_iter0 p s _ (by omega)]
      exact h r n
  · rw [stepZ_us_ne p c s z r hz]
    exact h r n

theorem stepZ_vs_bound (p : FitParams N K T R) (c : ℕ) (s : FitState N K T R) (z : ℕ)
    (hm1 : 0 ≤ p.max_shift_axis1) (hxi : ∀ i, 0 ≤ p.xi i ∧ p.xi i ≤ 1)
    (h : ∀ r k, |s.vs r k| ≤ p.max_shift_axis1 * (T : ℚ)) (r : Fin R) (k : Fin K) :
    |(stepZ p c s z).vs r k| ≤ p.max_shift_axis1 * (T : ℚ) := by
  by_cases hz : z = 5 * (r : ℕ) + 4
  · subst hz
    by_cases hc : 0 < c
    · rw [stepZ_q4r p c s r hc]
      show |Function.update s.vs r _ r k| ≤ _
      rw [Function.update_same]
      exact fit_shift_bound _ _ _ _ _ _ _ _ _ _ _
        (mul_nonneg hm1 (Nat.cast_nonneg T)) (h r k) hxi
    · have hc0 : c = 0 := by omega
      subst hc0
      rw [stepZ_q4_iter0 p s _ (by omega)]
      exact h r k
  · rw [stepZ_vs_ne p c s z r hz]
    exact h r k

theorem foldl_shift_bound (p : FitParams N K T R) (c : ℕ) (L : List ℕ)
    (s : FitState N K T R) (hm0 : 0 ≤ p.max_shift_axis0) (hm1 : 0 ≤ p.max_shift_axis1)
    (hxi : ∀ i, 0 ≤ p.xi i ∧ p.xi i ≤ 1)
    (h0 : ∀ r n, |s.us r n| ≤ p.max_shift_axis0 * (T : ℚ))
    (h1 : ∀ r k, |s.vs r k| ≤ p.max_shift_axis1 * (T : ℚ)) :
    (∀ r n, |(L.foldl (stepZ p c) s).us r n| ≤ p.max_shift_axis0 * (T : ℚ))
      ∧ (∀ r k, |(L.foldl (stepZ p c) s).vs r k| ≤ p.max_shift_axis1 * (T : ℚ)) := by
  induction L generalizing s with
  | nil => exact ⟨h0, h1⟩
  | cons a L ih =>
    rw [List.foldl_cons]
    exact ih _ (stepZ_us_bound p c s a hm0 hxi h0) (stepZ_vs_bound p c s a hm1 hxi h1)

/-- **C3 (amended).** Provided the incoming shift arrays satisfy the bounds
`|u_s[r,n]| ≤ max_shift_axis0·T` and `|v_s[r,k]| ≤ max_shift_axis1·T`, the
bounds (nonnegative) and the random stream has support in `[0, 1]`, the
bounds hold at every outer iteration; moreover every random candidate of the
shift search lies within `[-max_shift, max_shift]`, and the search result is
within the bound whenever its seed is.  The correction: candidate `0` is the
unclamped incoming seed, so an out-of-bound seed can be proposed and
returned unchanged (see the counterexample); the clamping claim therefore
only holds relative to in-bound initial shifts. -/
theorem c3_shift_bound_amended (p : FitParams N K T R) (s₀ : FitState N K T R)
    (hm0 : 0 ≤ p.max_shift_axis0) (hm1 : 0 ≤ p.max_shift_axis1)
    (hxi : ∀ i, 0 ≤ p.xi i ∧ p.xi i ≤ 1)
    (h0 : ∀ r n, |s₀.us r n| ≤ p.max_shift_axis0 * (T : ℚ))
    (h1 : ∀ r k, |s₀.vs r k| ≤ p.max_shift_axis1 * (T : ℚ)) :
    (∀ i : ℕ, (∀ r n, |(iterState p s₀ i).us r n| ≤ p.max_shift_axis0 * (T : ℚ))
      ∧ (∀ r k, |(iterState p s₀ i).vs r k| ≤ p.max_shift_axis1 * (T : ℚ)))
    ∧ (∀ (m init : ℚ) (xi : ℕ → ℚ) (pos i : ℕ), 0 ≤ m →
        (∀ j, 0 ≤ xi j ∧ xi j ≤ 1) → 1 ≤ i → |candShift m init xi pos i| ≤ m) := by
  constructor
  · intro i
    induction i with
    | zero => exact ⟨h0, h1⟩
    | succ i ih =>
      constructor
      · intro r n
        show |(outerIter p i (iterState p s₀ i)).us r n| ≤ _
        unfold outerIter
        rw [impute_us]
        unfold innerPass
        exact (foldl_shift_bound p i _ _ hm0 hm1 hxi ih.1 ih.2).1 r n
      · intro r k
        show |(outerIter p i (iterState p s₀ i)).vs r k| ≤ _
        unfold outerIter
        rw [impute_vs]
        unfold innerPass
        exact (foldl_shift_bound p i _ _ hm0 hm1 hxi ih.1 ih.2).2 r k
  · intro m init xi pos i hm hxi2 hi
    unfold candShift
    rw [if_neg (by omega)]
    rw [abs_le]
    obtain ⟨hlo, hhi⟩ := hxi2 (pos + (i - 1))
    constructor <;> nlinarith

/-- **C3 (counterexample).** The claim that the shift search "never proposes
or accepts a candidate shift outside the bound ±max_shift passed to it" is
false: with `max_shift = 1/5` and one candidate, `_fit_shift` evaluates the
incoming seed `100` — un-clamped candidate `0` — and returns it, far outside
the bound. -/
theorem c3_counterexample :
    fit_shift exZ3 1 exF3 exFs3 exW3 (1/5) false 1 100 (fun _ => 0) 0 = 100
    ∧ ¬ (|(100 : ℚ)| ≤ 1/5) := by
  constructor
  · unfold fit_shift
    rw [show List.range 1 = [0] from rfl, List.foldl_cons, List.foldl_nil, fitShiftStep_none]
    rfl
  · norm_num

/-- Witness for the amended C3 theorem at the concrete run `exP3`/`exS3`. -/
theorem c3_witness :
    (0 : ℚ) ≤ exP3.max_shift_axis0
    ∧ ∀ r n, |(iterState exP3 exS3 1).us r n| ≤ exP3.max_shift_axis0 * ((2 : ℕ) : ℚ) := by
  have hm0 : (0 : ℚ) ≤ exP3.max_shift_axis0 := by norm_num [exP3]
  have hm1 : (0 : ℚ) ≤ exP3.max_shift_axis1 := by norm_num [exP3]
  have hxi : ∀ i, 0 ≤ exP3.xi i ∧ exP3.xi i ≤ 1 :=
    fun i => ⟨by norm_num [exP3], by norm_num [exP3]⟩
  have h0 : ∀ r n, |exS3.us r n| ≤ exP3.max_shift_axis0 * ((2 : ℕ) : ℚ) := by
    intro r n
    norm_num [exS3, exP3]
  have h1 : ∀ r k, |exS3.vs r k| ≤ exP3.max_shift_axis1 * ((2 : ℕ) : ℚ) := by
    intro r k
    norm_num [exS3, exP3]
  exact ⟨hm0, ((c3_shift_bound_amended exP3 exS3 hm0 hm1 hxi h0 h1).1 1).1⟩

/-- **C7 (amended).** The closed-form axis-0 and axis-1 weight updates
divide by the raw accumulated denominators with no epsilon guard: the
updates are exactly `num / denom`.  The denominators are nonnegative sums of
squares, but nothing prevents them from being exactly zero. -/
theorem c7_division_amended (p : FitParams N K T R) (s : FitState N K T R) (r : Fin R)
    (Z : Fin N → Fin K → Fin T → ℚ) :
    (∀ n, uRatio p s r Z n = uNum p s r Z n / uDenom p s r n)
    ∧ (∀ k, vRatio p s r Z k = vNum p s r Z k / vDenom p s r k)
    ∧ (∀ n, 0 ≤ uDenom p s r n)
    ∧ (∀ k, 0 ≤ vDenom p s r k) := by
  refine ⟨fun n => rfl, fun k => rfl, fun n => ?_, fun k => ?_⟩
  · unfold uDenom
    exact Finset.sum_nonneg fun k2 _ => mul_nonneg (mul_self_nonneg _)
      (Finset.sum_nonneg fun t _ => mul_self_nonneg _)
  · unfold vDenom
    exact Finset.sum_nonneg fun n2 _ => mul_nonneg (mul_self_nonneg _)
      (Finset.sum_nonneg fun t _ => mul_self_nonneg _)

/-- **C7 (counterexample).** The claim that every division inside the main
loop is protected by a small-epsilon guard is false: at the valid input
state `exS7` (temporal factor identically zero, zero shifts) both the
axis-0 and the axis-1 update denominators are exactly `0`, and the update
divides by them unguarded. -/
theorem c7_counterexample :
    uDenom exP7 exS7 0 0 = 0 ∧ vDenom exP7 exS7 0 0 = 0 := by
  constructor
  · rw [uDenom_eval exP7 exS7 rfl rfl 0]
    show (1 : ℚ) * 1 * ∑ t : Fin 1, (0 : ℚ) * 0 = 0
    rw [Fin.sum_univ_one]
    norm_num
  · rw [vDenom_eval exP7 exS7 rfl rfl 0]
    show (1 : ℚ) * 1 * ∑ t : Fin 1, (0 : ℚ) * 0 = 0
    rw [Fin.sum_univ_one]
    norm_num

/-- **C8 (amended).** `fit_shift_cp2` performs no configuration or shape
validation at entry: with `max_iter = 0` (a non-positive iteration budget)
it simply returns the input state unchanged with an empty loss history
instead of rejecting the call. -/
theorem c8_no_validation_amended (p : FitParams N K T R) (s₀ : FitState N K T R)
    (h : p.max_iter = 0) : fit_shift_cp2 p s₀ = (s₀, []) := by
  show fitLoop p p.max_iter s₀ [] = (s₀, [])
  rw [h]
  exact fitLoop_zero p s₀ []

/-- **C8 (counterexample).** The claim that invalid configuration
(non-positive `max_iter`, shift bound `≤ 0`) is rejected before the main
loop is false: `exP8` has `max_iter = 0` and `max_shift_axis0 = 0`, yet the
call proceeds and returns normally. -/
theorem c8_counterexample :
    exP8.max_iter = 0 ∧ exP8.max_shift_axis0 = 0
    ∧ fit_shift_cp2 exP8 exS8 = (exS8, []) := by
  refine ⟨rfl, rfl, ?_⟩
  show fitLoop exP8 0 exS8 [] = (exS8, [])
  exact fitLoop_zero exP8 exS8 []

/-- Witness for the amended C8 theorem at the concrete invalid
configuration `exP8`. -/
theorem c8_witness :
    exP8.max_iter = 0 ∧ fit_shift_cp2 exP8 exS8 = (exS8, []) :=
  ⟨rfl, c8_no_validation_amended exP8 exS8 rfl⟩

/-- **C9.** The mask is treated as present exactly when its flat size
equals `N * K * T`.  The inner pass never writes `X`; without a mask `X` is
never written during the whole call; with a mask, each outer iteration
overwrites exactly the entries with `mask = false` with the current full
prediction, and entries with `mask = true` are never modified. -/
theorem c9_mask_frame (p : FitParams N K T R) (s₀ : FitState N K T R) :
    (∀ c (s : FitState N K T R), (innerPass p c s).X = s.X)
    ∧ (¬ p.mask.length = N * K * T → ∀ i, (iterState p s₀ i).X = s₀.X)
    ∧ (p.mask.length = N * K * T → ∀ i (s : FitState N K T R) n k t,
        (outerIter p i s).X n k t =
          if maskAt p n k t then s.X n k t
          else predict (innerPass p i s).u (innerPass p i s).v (innerPass p i s).w
            (innerPass p i s).us (innerPass p i s).vs p.periodic (-1) n k t)
    ∧ (p.mask.length = N * K * T → ∀ n k t, maskAt p n k t = true →
        ∀ i, (iterState p s₀ i).X n k t = s₀.X n k t) := by
  have hinner : ∀ c (s : FitState N K T R), (innerPass p c s).X = s.X :=
    fun c s => foldl_stepZ_X p c (p.perm c) s
  have houter : p.mask.length = N * K * T → ∀ i (s : FitState N K T R) n k t,
      (outerIter p i s).X n k t =
        if maskAt p n k t then s.X n k t
        else predict (innerPass p i s).u (innerPass p i s).v (innerPass p i s).w
          (innerPass p i s).us (innerPass p i s).vs p.periodic (-1) n k t := by
    intro h i s n k t
    unfold outerIter impute
    rw [if_pos h]
    show (if maskAt p n k t then (innerPass p i s).X n k t
        else predict (innerPass p i s).u (innerPass p i s).v (innerPass p i s).w
          (innerPass p i s).us (innerPass p i s).vs p.periodic (-1) n k t)
      = if maskAt p n k t then s.X n k t
        else predict (innerPass p i s).u (innerPass p i s).v (innerPass p i s).w
          (innerPass p i s).us (innerPass p i s).vs p.periodic (-1) n k t
    rw [hinner i s]
  have hnomask : ¬ p.mask.length = N * K * T → ∀ i, (iterState p s₀ i).X = s₀.X := by
    intro h i
    induction i with
    | zero => rfl
    | succ i ih =>
      show (outerIter p i (iterState p s₀ i)).X = s₀.X
      unfold outerIter
      rw [impute_not_masked p _ h, hinner, ih]
  have hkeep : p.mask.length = N * K * T → ∀ n k t, maskAt p n k t = true →
      ∀ i, (iterState p s₀ i).X n k t = s₀.X n k t := by
    intro h n k t hm i
    induction i with
    | zero => rfl
    | succ i ih =>
      show (outerIter p i (iterState p s₀ i)).X n k t = s₀.X n k t
      rw [houter h i (iterState p s₀ i) n k t, if_pos hm, ih]
  exact ⟨hinner, hnomask, houter, hkeep⟩

/-- Witness for the C9 frame conditions at the concrete maskless run
`exP9`/`exS9`. -/
theorem c9_witness :
    ¬ exP9.mask.length = 1 * 1 * 1 ∧ (iterState exP9 exS9 1).X = exS9.X :=
  ⟨by decide, (c9_mask_frame exP9 exS9).2.1 (by decide) 1⟩

/-- **C10.** For every non-empty list of factor matrices,
`standardize_kruskal` raises `NameError` (its inner loop header reads the
unbound name `self`), so it never returns the documented
`(std_factors, lam)` pair. -/
theorem c10_name_error (factors : List Mat) (h : factors ≠ []) :
    standardize_kruskal factors = Except.error PyErr.nameError := by
  cases factors with
  | nil => exact absurd rfl h
  | cons f fs => rfl

/-- Witness for the C10 theorem at a concrete one-matrix input. -/
theorem c10_witness :
    ([exM10] : List Mat) ≠ []
    ∧ standardize_kruskal [exM10] = Except.error PyErr.nameError :=
  ⟨List.cons_ne_nil _ _, c10_name_error [exM10] (List.cons_ne_nil _ _)⟩
